import Mathlib

/-!
# NOVA Music API backend — a shallow embedding of the resolution cache,
# key-lock registry, singleflight coordinator, priority pool and streaming proxy

Embeds the relevant parts of `src/backend/main.py` as executable Lean
definitions and proves the frozen claims about them.

Conventions:
* machine time (`time.time()`) is a `Nat` passed in explicitly as `now`;
* the Python dicts / `cachetools.TTLCache` tables are association lists with
  key-observable semantics (`lookupKey`);
* the external Resolver (yt-dlp extraction plus format selection) is an
  opaque collaborator, per §6 of the spec, modelled as an oracle input of
  type `Option (Url × String)` — a resolved `(audio_url, content_type)`
  pair or a failure (covers `info` falsy, no formats, and raised
  exceptions, all of which the source collapses into the same failure
  handling).
-/

namespace Nova

/-! ## Association-list primitives (Python dict semantics) -/

def lookupKey {κ α : Type} [DecidableEq κ] : List (κ × α) → κ → Option α
  | [], _ => none
  | (k', v) :: rest, k => if k' = k then some v else lookupKey rest k

def eraseKey {κ α : Type} [DecidableEq κ] : List (κ × α) → κ → List (κ × α)
  | [], _ => []
  | (k', v) :: rest, k =>
      if k' = k then eraseKey rest k else (k', v) :: eraseKey rest k

def insertKey {κ α : Type} [DecidableEq κ] (c : List (κ × α)) (k : κ) (v : α) :
    List (κ × α) :=
  (k, v) :: eraseKey c k

def updateKey {κ α : Type} [DecidableEq κ] (c : List (κ × α)) (k : κ)
    (f : α → α) : List (κ × α) :=
  c.map (fun p => if p.1 = k then (p.1, f p.2) else p)

@[simp] theorem lookupKey_nil {κ α : Type} [DecidableEq κ] (k : κ) :
    lookupKey ([] : List (κ × α)) k = none := rfl

@[simp] theorem lookupKey_cons {κ α : Type} [DecidableEq κ] (k' : κ) (v : α)
    (rest : List (κ × α)) (k : κ) :
    lookupKey ((k', v) :: rest) k =
      if k' = k then some v else lookupKey rest k := rfl

@[simp] theorem eraseKey_nil {κ α : Type} [DecidableEq κ] (k : κ) :
    eraseKey ([] : List (κ × α)) k = [] := rfl

@[simp] theorem eraseKey_cons {κ α : Type} [DecidableEq κ] (k' : κ) (v : α)
    (rest : List (κ × α)) (k : κ) :
    eraseKey ((k', v) :: rest) k =
      if k' = k then eraseKey rest k else (k', v) :: eraseKey rest k := rfl

theorem lookupKey_eraseKey_self {κ α : Type} [DecidableEq κ]
    (c : List (κ × α)) (k : κ) : lookupKey (eraseKey c k) k = none := by
  induction c with
  | nil => rfl
  | cons p rest ih =>
      rcases p with ⟨pk, pv⟩
      by_cases h : pk = k
      · simpa [h] using ih
      · simpa [h] using ih

theorem lookupKey_eraseKey_ne {κ α : Type} [DecidableEq κ]
    (c : List (κ × α)) (k k' : κ) (hne : k' ≠ k) :
    lookupKey (eraseKey c k) k' = lookupKey c k' := by
  induction c with
  | nil => rfl
  | cons p rest ih =>
      rcases p with ⟨pk, pv⟩
      by_cases h : pk = k
      · have hkk' : k ≠ k' := fun hh => hne hh.symm
        simpa [h, hkk'] using ih
      · by_cases h2 : pk = k'
        · simp [h, h2, hne]
        · simpa [h, h2] using ih

theorem lookupKey_insertKey_self {κ α : Type} [DecidableEq κ]
    (c : List (κ × α)) (k : κ) (v : α) :
    lookupKey (insertKey c k v) k = some v := by
  simp [insertKey, lookupKey]

theorem lookupKey_insertKey_ne {κ α : Type} [DecidableEq κ]
    (c : List (κ × α)) (k k' : κ) (v : α) (hne : k' ≠ k) :
    lookupKey (insertKey c k v) k' = lookupKey c k' := by
  have : k ≠ k' := fun h => hne h.symm
  simp [insertKey, lookupKey, this, lookupKey_eraseKey_ne c k k' hne]

/-! ## URLs and resolution entries -/

/-- A resolved media URL. Only the property the backend inspects is kept:
whether the query string carries a parseable `expire` parameter. -/
structure Url where
  name : String
  expireParam : Option Nat
  deriving DecidableEq, Repr

/-- A `ResolutionEntry` as stored in `audio_url_cache`: the triple
`(audio_url, expire_timestamp, content_type)`. -/
structure ResEntry where
  url : Url
  expire : Nat
  contentType : String
  deriving DecidableEq, Repr

abbrev Cache := List (String × ResEntry)

/-- `audio_url_failure_cache` : id ↦ time the FailureEntry was written.
`cachetools.TTLCache(maxsize=2048, ttl=900)`. -/
abbrev FailCache := List (String × Nat)

/-- TTL of `audio_url_failure_cache` (900 s = 15 min). -/
def failureTtl : Nat := 900

/-- `cachetools` treats an entry as present while `timer() < expires`. -/
def failureLive (fc : FailCache) (videoId : String) (now : Nat) : Bool :=
  match lookupKey fc videoId with
  | some t => now < t + failureTtl
  | none => false

/-- `parse_expire_from_url`: the `expire` query parameter when present and
parseable, else `int(time.time()) + 3600` (also the value returned when
parsing raises). -/
def parse_expire_from_url (u : Url) (now : Nat) : Nat :=
  match u.expireParam with
  | some e => e
  | none => now + 3600

/-- The expiring cache read that appears verbatim at both read sites
(`get_or_cache_audio_url`, lines 259–264, and `get_yt_audio`,
lines 888–896):

    if video_id in audio_url_cache:
        audio_url, expire_timestamp, content_type = audio_url_cache[video_id]
        if time.time() < expire_timestamp:
            return/use the triple
        else:
            del audio_url_cache[video_id]   # treated as a miss

Returns the entry when fresh, otherwise `none` together with the cache with
the expired entry deleted. -/
def cacheRead (c : Cache) (videoId : String) (now : Nat) :
    Option ResEntry × Cache :=
  match lookupKey c videoId with
  | some e => if now < e.expire then (some e, c) else (none, eraseKey c videoId)
  | none => (none, c)

/-! ## TimedLock and the lock registry -/

/-- `TimedLock`: an `RLock` (recursion count) plus the acquisition time
(`_acquire_time`, set on successful acquire, cleared on release). -/
structure TimedLock where
  count : Nat
  acquireTime : Option Nat
  deriving DecidableEq, Repr

/-- `TimedLock.locked`: `self._lock._count > 0`. -/
def TimedLock.isHeld (l : TimedLock) : Bool := l.count > 0

abbrev LockMap := List (String × TimedLock)

/-- Staleness threshold of `cleanup_locks` (30 s). -/
def lockStaleThreshold : Nat := 30

/-- The removal condition of `cleanup_locks`: unlocked locks, and locks held
longer than the staleness threshold. -/
def shouldRemoveLock (l : TimedLock) (now : Nat) : Bool :=
  if ¬ l.isHeld then true
  else
    match l.acquireTime with
    | some t => now > t + lockStaleThreshold
    | none => false

/-- `cleanup_locks`: collect all ids whose lock is unlocked or stale, then
delete each collected id from `audio_url_locks` (the release attempt on the
way out only mutates the removed object, so it is not observable through
the registry). -/
def cleanup_locks (locks : LockMap) (now : Nat) : LockMap :=
  let toRemove := (locks.filter (fun p => shouldRemoveLock p.2 now)).map (·.1)
  toRemove.foldl (fun acc vid => eraseKey acc vid) locks

/-- Hard ceiling on the registry before `force_cleanup_locks` clears it. -/
def lockRegistryBound : Nat := 100

/-! ## The singleflight coordinator `get_or_cache_audio_url` -/

structure CoordState where
  audioCache : Cache
  failureCache : FailCache
  locks : LockMap
  deriving DecidableEq, Repr

/-- Per-call environment: the clock, the outcome of the 4 %-probability
`cleanup_locks` draw, the outcome of `lock.acquire(timeout=5)`, and the
Resolver oracle (success gives the chosen `(audio_url, content_type)`). -/
structure CallEnv where
  now : Nat
  doCleanup : Bool
  acquireOk : Bool
  resolver : Option (Url × String)
  deriving DecidableEq, Repr

/-- The return value of `get_or_cache_audio_url`: either the triple
`(audio_url, expire_timestamp, content_type)` or `(None, None, None)`. -/
inductive CoordResult where
  | success (url : Url) (expire : Nat) (contentType : String)
  | failure
  deriving DecidableEq, Repr

/-- Outcome of one call: the returned value, the final shared state, and two
ghost observations — whether the Resolver (yt-dlp extraction) was invoked
and whether the per-id lock was acquired. -/
structure CallOutcome where
  result : CoordResult
  state : CoordState
  resolverCalled : Bool
  lockAcquired : Bool
  deriving DecidableEq, Repr

/-- `get_or_cache_audio_url(video_id)` (lines 234–313), sequential view:

1. recent-failure check (`video_id in audio_url_failure_cache` → `None`);
2. with probability 0.04, `cleanup_locks()`;
3. `audio_url_locks.setdefault(video_id, TimedLock())`;
4. `lock.acquire(timeout=5)`; on timeout delete the id from the registry,
   force-clear it when more than 100 locks remain, and return `None`;
5. under the lock: expiring read of `audio_url_cache`; a fresh triple is
   returned as-is; otherwise invoke the Resolver, write the
   `ResolutionEntry` (success) or the `FailureEntry` (failure);
6. `finally: lock.release()`. -/
def get_or_cache_audio_url (st : CoordState) (videoId : String)
    (env : CallEnv) : CallOutcome :=
  if failureLive st.failureCache videoId env.now then
    ⟨.failure, st, false, false⟩
  else
    let locks0 := if env.doCleanup then cleanup_locks st.locks env.now
                  else st.locks
    let locks1 := match lookupKey locks0 videoId with
      | some _ => locks0
      | none => insertKey locks0 videoId ⟨0, none⟩
    if ¬ env.acquireOk then
      let locks2 := eraseKey locks1 videoId
      let locks3 := if locks2.length > lockRegistryBound then [] else locks2
      ⟨.failure, { st with locks := locks3 }, false, false⟩
    else
      let locks2 := updateKey locks1 videoId
        (fun l => ⟨l.count + 1, some env.now⟩)
      let release := fun (lm : LockMap) =>
        updateKey lm videoId (fun l => ⟨l.count - 1, none⟩)
      match cacheRead st.audioCache videoId env.now with
      | (some e, cache') =>
          ⟨.success e.url e.expire e.contentType,
           ⟨cache', st.failureCache, release locks2⟩, false, true⟩
      | (none, cache') =>
          match env.resolver with
          | none =>
              ⟨.failure,
               ⟨cache', insertKey st.failureCache videoId env.now,
                release locks2⟩, true, true⟩
          | some (u, ct) =>
              let T := parse_expire_from_url u env.now
              ⟨.success u T ct,
               ⟨insertKey cache' videoId ⟨u, T, ct⟩, st.failureCache,
                release locks2⟩, true, true⟩

/-! ## The streaming proxy `get_yt_audio` (`GET /yt_audio`) -/

/-- Outcome of the inline yt-dlp extraction fallback of `get_yt_audio`
(lines 906–961): the distinct early-return branches of the source, plus the
successful `(audio_url, content_type)` selection. -/
inductive ExtractOutcome where
  | noInfo
  | noFormats
  | noAudioUrl
  | exn (msg : String)
  | ok (url : Url) (contentType : String)
  deriving DecidableEq, Repr

/-- Outcome of `session.get(audio_url, headers=..., stream=True, timeout=10)`. -/
inductive UpstreamResult where
  | timeout
  | reqError (msg : String)
  | ok (status : Nat) (headers : List (String × String))
  deriving DecidableEq, Repr

/-- What the endpoint hands back to the client: a JSON `{"error": ...}`
payload or a `StreamingResponse` with a status code and headers. -/
inductive YtAudioResult where
  | jsonError (msg : String)
  | stream (status : Nat) (headers : List (String × String))
  deriving DecidableEq, Repr

/-- The fixed headers sent upstream, plus the client's `Range` header
forwarded verbatim when present (lines 963–972). -/
def upstreamRequestHeaders (range : Option String) : List (String × String) :=
  [("Accept-Encoding", "gzip, deflate"),
   ("User-Agent",
    "Mozilla/5.0 (Windows NT 10.0; Win64; x64) AppleWebKit/537.36")] ++
  (match range with
   | some r => [("Range", r)]
   | none => [])

/-- The headers returned to the client (lines 998–1013): `Content-Type`,
`Content-Disposition`, `Cache-Control` and `Accept-Ranges` are always set;
`Content-Length`, `Content-Range` and `Content-Encoding` are copied from
the upstream response when present. -/
def ytAudioResponseHeaders (videoId : String) (contentType : String)
    (upstreamHeaders : List (String × String)) : List (String × String) :=
  [("Content-Type", contentType),
   ("Content-Disposition", "inline; filename=\"" ++ videoId ++ ".mp3\""),
   ("Cache-Control", "max-age=3600"),
   ("Accept-Ranges", "bytes")] ++
  (["Content-Length", "Content-Range", "Content-Encoding"].filterMap
    (fun h => (lookupKey upstreamHeaders h).map (fun v => (h, v))))

/-- `get_yt_audio(video_id)` (lines 881–1027): expiring read of
`audio_url_cache`; on a miss, the inline extraction fallback (modelled by
the `extract` oracle) either early-returns a JSON error or caches a fresh
entry; then the upstream request is issued with the `Range` header
forwarded, and the response is either a JSON error (connect failure) or a
`StreamingResponse` carrying the upstream status code.

Returns (client result, final cache, request headers sent upstream — the
last is `[]` when no upstream request was made). -/
def get_yt_audio (cache : Cache) (videoId : String) (now : Nat)
    (range : Option String) (extract : ExtractOutcome)
    (upstream : UpstreamResult) :
    YtAudioResult × Cache × List (String × String) :=
  let (hit, cache1) := cacheRead cache videoId now
  let afterResolve : (String × Cache) ⊕ String :=
    match hit with
    | some e => .inl (e.contentType, cache1)
    | none =>
        match extract with
        | .noInfo => .inr "Could not extract video information"
        | .noFormats => .inr "No formats found"
        | .noAudioUrl => .inr "No suitable audio URL found"
        | .exn m => .inr ("Error extracting audio: " ++ m)
        | .ok u ct =>
            .inl (ct, insertKey cache1 videoId
              ⟨u, parse_expire_from_url u now, ct⟩)
  match afterResolve with
  | .inr msg => (.jsonError msg, cache1, [])
  | .inl (contentType, cache2) =>
      let reqHeaders := upstreamRequestHeaders range
      match upstream with
      | .timeout =>
          (.jsonError "Timeout when requesting audio stream", cache2,
           reqHeaders)
      | .reqError m =>
          (.jsonError ("Error requesting audio stream: " ++ m), cache2,
           reqHeaders)
      | .ok status uh =>
          (.stream status (ytAudioResponseHeaders videoId contentType uh),
           cache2, reqHeaders)

/-! ## The priority pool (`TaskPriority`, `PriorityTask`, `PriorityThreadPool`) -/

/-- `TaskPriority(IntEnum)`: lower value = higher priority. -/
inductive TaskPriority where
  | critical
  | high
  | medium
  | low
  | background
  deriving DecidableEq, Repr

/-- The `IntEnum` value. -/
def TaskPriority.val : TaskPriority → Nat
  | .critical => 1
  | .high => 2
  | .medium => 3
  | .low => 4
  | .background => 5

/-- `PriorityTask`: priority, task id, submission timestamp (`created_at`);
the work closure is represented by the task id. -/
structure PriorityTask where
  priority : TaskPriority
  task_id : String
  created_at : Nat
  deriving DecidableEq, Repr

/-- `PriorityTask.__lt__`: by priority value ascending, then by
`created_at` ascending. -/
def priorityTaskLt (a b : PriorityTask) : Bool :=
  if a.priority.val ≠ b.priority.val then a.priority.val < b.priority.val
  else a.created_at < b.created_at

/-- `PriorityThreadPool` state: the `task_queue = PriorityQueue()` field,
the FIFO work queue of the inner `ThreadPoolExecutor`, and the per-tier
submission counters (`stats`). `running_tasks` bookkeeping is omitted: it
does not affect execution order. -/
structure PriorityThreadPool where
  task_queue : List PriorityTask
  workQueue : List PriorityTask
  stats : List (TaskPriority × Nat)
  deriving DecidableEq, Repr

def PriorityThreadPool.empty : PriorityThreadPool :=
  ⟨[], [],
   [(.critical, 0), (.high, 0), (.medium, 0), (.low, 0), (.background, 0)]⟩

/-- `PriorityThreadPool.submit(priority, task_id, func, ...)`: bumps the
tier counter and hands the task to `self.thread_pool.submit(...)`, i.e.
appends it to the executor's FIFO work queue. The `task_queue`
`PriorityQueue` field is not touched anywhere in the source. -/
def PriorityThreadPool.submit (pool : PriorityThreadPool)
    (priority : TaskPriority) (taskId : String) (createdAt : Nat) :
    PriorityThreadPool :=
  let task : PriorityTask := ⟨priority, taskId, createdAt⟩
  { pool with
    stats := updateKey pool.stats priority (· + 1)
    workQueue := pool.workQueue ++ [task] }

/-- With every worker busy at submission time, the executor's workers drain
the FIFO work queue front-to-back, so queued tasks execute in queue
order. -/
def PriorityThreadPool.executionOrder (pool : PriorityThreadPool) :
    List String :=
  pool.workQueue.map (·.task_id)

/-- Submit a batch in order, stamping consecutive `created_at` values. -/
def submitAll (pool : PriorityThreadPool)
    (tasks : List (TaskPriority × String)) (t0 : Nat) : PriorityThreadPool :=
  (tasks.enum.foldl
    (fun acc p => acc.submit p.2.1 p.2.2 (t0 + p.1)) pool)

/-! ## Interleaved model of concurrent `get_or_cache_audio_url` calls

One fixed content identifier, `n` caller threads. Each Python-level atomic
operation of `get_or_cache_audio_url` is one step; the scheduler picks
which thread steps and, at a blocked `lock.acquire(timeout=5)`, whether the
attempt succeeds (possible only while the lock is free) or times out
(possible only while another thread holds it). Lock objects are
generational: `del audio_url_locks[video_id]` followed by a later
`setdefault` creates a fresh `TimedLock`, unrelated to the object an
in-flight caller still references. -/

namespace Concurrent

/-- Return value seen by one caller. -/
inductive CResult where
  | success (e : ResEntry)
  | failure
  deriving DecidableEq, Repr

/-- Program counter of one caller thread inside
`get_or_cache_audio_url`. -/
inductive PC where
  | start
  | passedFailure
  | acquiring (gen : Nat)
  | locked (gen : Nat)
  | resolving (gen : Nat) (k : Nat)
  | releasing (gen : Nat) (r : CResult)
  | done (r : CResult)
  deriving DecidableEq, Repr

/-- Shared state: the two caches for the identifier, the registry entry of
`audio_url_locks` (the generation currently stored, if any), the holder of
each lock generation, the ghost count of Resolver invocations, and every
thread's program counter. -/
structure GState where
  cache : Option ResEntry
  failureAt : Option Nat
  registry : Option Nat
  nextGen : Nat
  holders : List (Nat × Option Nat)
  resolverCount : Nat
  threads : List PC
  deriving DecidableEq, Repr

def setThread (m : GState) (tid : Nat) (pc : PC) : GState :=
  { m with threads := m.threads.set tid pc }

def failureLiveAt (failureAt : Option Nat) (now : Nat) : Bool :=
  match failureAt with
  | some t => now < t + failureTtl
  | none => false

/-- One step of thread `tid`. `choice` is consulted only in the `acquiring`
state: `true` attempts the acquisition (enabled while the generation is
free), `false` is the 5-second timeout (enabled while another thread holds
the generation). A disabled step leaves the state unchanged. -/
def step (now : Nat) (behavior : Nat → Option (Url × String)) (m : GState)
    (tid : Nat) (choice : Bool) : GState :=
  match m.threads[tid]? with
  | none => m
  | some pc =>
    match pc with
    | .start =>
        if failureLiveAt m.failureAt now then
          setThread m tid (.done .failure)
        else
          setThread m tid .passedFailure
    | .passedFailure =>
        match m.registry with
        | some g => setThread m tid (.acquiring g)
        | none =>
            { m with
              registry := some m.nextGen
              nextGen := m.nextGen + 1
              holders := (m.nextGen, none) :: m.holders
              threads := m.threads.set tid (.acquiring m.nextGen) }
    | .acquiring g =>
        if choice then
          match lookupKey m.holders g with
          | some none =>
              { m with
                holders := updateKey m.holders g (fun _ => some tid)
                threads := m.threads.set tid (.locked g) }
          | _ => m
        else
          match lookupKey m.holders g with
          | some (some t') =>
              if t' ≠ tid then
                { m with
                  registry := none
                  threads := m.threads.set tid (.done .failure) }
              else m
          | _ => m
    | .locked g =>
        match m.cache with
        | some e =>
            if now < e.expire then
              { m with
                holders := updateKey m.holders g (fun _ => none)
                threads := m.threads.set tid (.done (.success e)) }
            else
              { m with
                cache := none
                resolverCount := m.resolverCount + 1
                threads := m.threads.set tid (.resolving g m.resolverCount) }
        | none =>
            { m with
              resolverCount := m.resolverCount + 1
              threads := m.threads.set tid (.resolving g m.resolverCount) }
    | .resolving g k =>
        match behavior k with
        | some (u, ct) =>
            let e : ResEntry := ⟨u, parse_expire_from_url u now, ct⟩
            { m with
              cache := some e
              threads := m.threads.set tid (.releasing g (.success e)) }
        | none =>
            { m with
              failureAt := some now
              threads := m.threads.set tid (.releasing g .failure) }
    | .releasing g r =>
        { m with
          holders := updateKey m.holders g (fun _ => none)
          threads := m.threads.set tid (.done r) }
    | .done _ => m

/-- A schedule entry: one atomic step of a caller thread (with the acquire
choice for its `acquiring` state), or one of the two registry sweeps that
other concurrent activity can interleave at any moment:

* `sweep` — a `cleanup_locks()` draw by any concurrent call
  (`main.py:240-241`): it deletes the identifier's handle from
  `audio_url_locks` when the lock is not held (`not lock.locked()`,
  line 138). Within one fixed-time episode a held lock has been held for
  0 s, which never exceeds the 30 s staleness bound, so the stale-held
  branch of the sweep cannot fire here (it is covered by the sequential
  `cleanup_locks` model and claim C7).
* `forceSweep` — a `force_cleanup_locks()` call (`main.py:157-162`),
  reachable from a lock-acquisition timeout on a different identifier when
  more than 100 handles are outstanding (`main.py:253-255`): it clears the
  whole registry, held or not. -/
inductive SEntry where
  | thread (tid : Nat) (choice : Bool)
  | sweep
  | forceSweep
  deriving DecidableEq, Repr

/-- One schedule entry applied to the state. -/
def stepEntry (now : Nat) (behavior : Nat → Option (Url × String))
    (m : GState) : SEntry → GState
  | .thread tid c => step now behavior m tid c
  | .sweep =>
      match m.registry with
      | some g =>
          match lookupKey m.holders g with
          | some none => { m with registry := none }
          | _ => m
      | none => m
  | .forceSweep => { m with registry := none }

/-- Run a schedule. -/
def run (now : Nat) (behavior : Nat → Option (Url × String)) (m : GState) :
    List SEntry → GState
  | [] => m
  | e :: rest => run now behavior (stepEntry now behavior m e) rest

/-- `n` callers, cold caches, empty registry. -/
def init (n : Nat) : GState :=
  ⟨none, none, none, 0, [], 0, List.replicate n .start⟩

def PC.isResolving : PC → Bool
  | .resolving _ _ => true
  | _ => false

/-- Number of Resolver calls in flight right now. -/
def inflight (m : GState) : Nat :=
  (m.threads.filter PC.isResolving).length

def PC.isDone : PC → Bool
  | .done _ => true
  | _ => false

end Concurrent

/-! ## Characterization lemmas for the sequential coordinator -/

theorem cacheRead_hit {c : Cache} {videoId : String} {now : Nat}
    {e : ResEntry} (h : lookupKey c videoId = some e)
    (hlt : now < e.expire) :
    cacheRead c videoId now = (some e, c) := by
  unfold cacheRead
  rw [h]
  simp [hlt]

theorem cacheRead_expired {c : Cache} {videoId : String} {now : Nat}
    {e : ResEntry} (h : lookupKey c videoId = some e)
    (hexp : ¬ now < e.expire) :
    cacheRead c videoId now = (none, eraseKey c videoId) := by
  unfold cacheRead
  rw [h]
  simp [hexp]

theorem cacheRead_absent {c : Cache} {videoId : String} {now : Nat}
    (h : lookupKey c videoId = none) :
    cacheRead c videoId now = (none, c) := by
  unfold cacheRead
  rw [h]

theorem cacheRead_fst_some {c : Cache} {videoId : String} {now : Nat}
    {e : ResEntry} (h : (cacheRead c videoId now).1 = some e) :
    now < e.expire ∧ lookupKey c videoId = some e ∧
      (cacheRead c videoId now).2 = c := by
  cases hl : lookupKey c videoId with
  | none => rw [cacheRead_absent hl] at h; simp at h
  | some e' =>
      by_cases hlt : now < e'.expire
      · have heq := cacheRead_hit hl hlt
        rw [heq] at h
        simp at h
        subst h
        exact ⟨hlt, rfl, by rw [heq]⟩
      · rw [cacheRead_expired hl hlt] at h
        simp at h

/-- Path 1 of `get_or_cache_audio_url`: a live FailureEntry short-circuits
everything. -/
theorem coord_failfast {st : CoordState} {videoId : String} {env : CallEnv}
    (h : failureLive st.failureCache videoId env.now = true) :
    get_or_cache_audio_url st videoId env = ⟨.failure, st, false, false⟩ := by
  simp [get_or_cache_audio_url, h]

theorem lookup_timeout_locks (lm : LockMap) (videoId : String) :
    lookupKey
      (if (eraseKey lm videoId).length > lockRegistryBound then []
       else eraseKey lm videoId) videoId = none := by
  split
  · rfl
  · exact lookupKey_eraseKey_self _ _

/-- Path 2: lock-acquisition timeout. -/
theorem coord_timeout {st : CoordState} {videoId : String} {env : CallEnv}
    (h : failureLive st.failureCache videoId env.now = false)
    (ha : env.acquireOk = false) :
    (get_or_cache_audio_url st videoId env).result = .failure ∧
    (get_or_cache_audio_url st videoId env).resolverCalled = false ∧
    (get_or_cache_audio_url st videoId env).lockAcquired = false ∧
    (get_or_cache_audio_url st videoId env).state.audioCache =
      st.audioCache ∧
    (get_or_cache_audio_url st videoId env).state.failureCache =
      st.failureCache ∧
    lookupKey (get_or_cache_audio_url st videoId env).state.locks
      videoId = none := by
  unfold get_or_cache_audio_url
  rw [h, if_neg Bool.false_ne_true, ha, if_pos Bool.false_ne_true]
  exact ⟨rfl, rfl, rfl, rfl, rfl, lookup_timeout_locks _ videoId⟩

/-- Path 3: fresh cache hit under the lock. -/
theorem coord_hit {st : CoordState} {videoId : String} {env : CallEnv}
    {e : ResEntry} {c' : Cache}
    (h : failureLive st.failureCache videoId env.now = false)
    (ha : env.acquireOk = true)
    (hcr : cacheRead st.audioCache videoId env.now = (some e, c')) :
    (get_or_cache_audio_url st videoId env).result =
      .success e.url e.expire e.contentType ∧
    (get_or_cache_audio_url st videoId env).state.audioCache = c' ∧
    (get_or_cache_audio_url st videoId env).state.failureCache =
      st.failureCache ∧
    (get_or_cache_audio_url st videoId env).resolverCalled = false ∧
    (get_or_cache_audio_url st videoId env).lockAcquired = true := by
  unfold get_or_cache_audio_url
  rw [h, if_neg Bool.false_ne_true, ha, if_neg (by simp), hcr]
  exact ⟨rfl, rfl, rfl, rfl, rfl⟩

/-- Path 4: miss under the lock, Resolver fails. -/
theorem coord_miss_fail {st : CoordState} {videoId : String} {env : CallEnv}
    {c' : Cache}
    (h : failureLive st.failureCache videoId env.now = false)
    (ha : env.acquireOk = true)
    (hcr : cacheRead st.audioCache videoId env.now = (none, c'))
    (hr : env.resolver = none) :
    (get_or_cache_audio_url st videoId env).result = .failure ∧
    (get_or_cache_audio_url st videoId env).state.audioCache = c' ∧
    (get_or_cache_audio_url st videoId env).state.failureCache =
      insertKey st.failureCache videoId env.now ∧
    (get_or_cache_audio_url st videoId env).resolverCalled = true ∧
    (get_or_cache_audio_url st videoId env).lockAcquired = true := by
  unfold get_or_cache_audio_url
  rw [h, if_neg Bool.false_ne_true, ha, if_neg (by simp), hcr, hr]
  exact ⟨rfl, rfl, rfl, rfl, rfl⟩

/-- Path 5: miss under the lock, Resolver succeeds. -/
theorem coord_miss_ok {st : CoordState} {videoId : String} {env : CallEnv}
    {c' : Cache} {u : Url} {ct : String}
    (h : failureLive st.failureCache videoId env.now = false)
    (ha : env.acquireOk = true)
    (hcr : cacheRead st.audioCache videoId env.now = (none, c'))
    (hr : env.resolver = some (u, ct)) :
    (get_or_cache_audio_url st videoId env).result =
      .success u (parse_expire_from_url u env.now) ct ∧
    (get_or_cache_audio_url st videoId env).state.audioCache =
      insertKey c' videoId ⟨u, parse_expire_from_url u env.now, ct⟩ ∧
    (get_or_cache_audio_url st videoId env).state.failureCache =
      st.failureCache ∧
    (get_or_cache_audio_url st videoId env).resolverCalled = true ∧
    (get_or_cache_audio_url st videoId env).lockAcquired = true := by
  unfold get_or_cache_audio_url
  rw [h, if_neg Bool.false_ne_true, ha, if_neg (by simp), hcr, hr]
  exact ⟨rfl, rfl, rfl, rfl, rfl⟩

/-! ## Further association-list lemmas -/

theorem lookupKey_some_mem {κ α : Type} [DecidableEq κ]
    {c : List (κ × α)} {k : κ} {v : α} (h : lookupKey c k = some v) :
    (k, v) ∈ c := by
  induction c with
  | nil => simp at h
  | cons p rest ih =>
      rcases p with ⟨pk, pv⟩
      by_cases hk : pk = k
      · subst hk
        simp [lookupKey] at h
        subst h
        exact List.mem_cons_self _ _
      · simp [lookupKey, hk] at h
        exact List.mem_cons_of_mem _ (ih h)

theorem lookupKey_eraseKey_none {κ α : Type} [DecidableEq κ]
    {c : List (κ × α)} {k : κ} (k' : κ) (h : lookupKey c k = none) :
    lookupKey (eraseKey c k') k = none := by
  by_cases hk : k = k'
  · subst hk; exact lookupKey_eraseKey_self c k
  · rw [lookupKey_eraseKey_ne c k' k hk]; exact h

theorem foldl_eraseKey_none {κ α : Type} [DecidableEq κ]
    {ids : List κ} {c : List (κ × α)} {k : κ} (h : lookupKey c k = none) :
    lookupKey (ids.foldl (fun acc vid => eraseKey acc vid) c) k = none := by
  induction ids generalizing c with
  | nil => exact h
  | cons i rest ih =>
      rw [List.foldl_cons]
      exact ih (lookupKey_eraseKey_none i h)

theorem foldl_eraseKey_mem {κ α : Type} [DecidableEq κ]
    {ids : List κ} {c : List (κ × α)} {k : κ} (h : k ∈ ids) :
    lookupKey (ids.foldl (fun acc vid => eraseKey acc vid) c) k = none := by
  induction ids generalizing c with
  | nil => simp at h
  | cons i rest ih =>
      rcases List.mem_cons.mp h with hk | hk
      · subst hk
        rw [List.foldl_cons]
        exact foldl_eraseKey_none (lookupKey_eraseKey_self c k)
      · rw [List.foldl_cons]
        exact ih hk

/-! ## Claim C1 -/

/-- C1 (confirmed). For every content identifier and both read paths — the
coordinator's cache read (`get_or_cache_audio_url`, lines 258–264) and the
streaming endpoint's cache read (`get_yt_audio`, lines 886–897), both of
which are the shared expiring read `cacheRead` — a ResolutionEntry stored
with expiry `T` is never returned at a time `now > T`; an expired entry is
treated as absent and deleted on read. Additionally, any success the
coordinator returns without invoking the Resolver is unexpired. -/
theorem claim_C1_no_expired_entry_returned :
    (∀ (c : Cache) (videoId : String) (now : Nat) (e : ResEntry),
      (cacheRead c videoId now).1 = some e → ¬ now > e.expire) ∧
    (∀ (c : Cache) (videoId : String) (now : Nat) (e : ResEntry),
      lookupKey c videoId = some e → now > e.expire →
      (cacheRead c videoId now).1 = none ∧
      lookupKey (cacheRead c videoId now).2 videoId = none) ∧
    (∀ (st : CoordState) (videoId : String) (env : CallEnv) (u : Url)
      (T : Nat) (ct : String),
      (get_or_cache_audio_url st videoId env).result = .success u T ct →
      (get_or_cache_audio_url st videoId env).resolverCalled = false →
      env.now < T) := by
  refine ⟨?_, ?_, ?_⟩
  · intro c videoId now e h
    have := (cacheRead_fst_some h).1
    omega
  · intro c videoId now e h hT
    have hexp : ¬ now < e.expire := by omega
    rw [cacheRead_expired h hexp]
    exact ⟨rfl, lookupKey_eraseKey_self _ _⟩
  · intro st videoId env u T ct hres hrc
    cases hf : failureLive st.failureCache videoId env.now with
    | true => rw [coord_failfast hf] at hres; simp at hres
    | false =>
        cases ha : env.acquireOk with
        | false => rw [(coord_timeout hf ha).1] at hres; simp at hres
        | true =>
            rcases hco : cacheRead st.audioCache videoId env.now with ⟨o, c'⟩
            cases o with
            | some e =>
                have hit := coord_hit hf ha hco
                rw [hit.1] at hres
                have hfst : (cacheRead st.audioCache videoId env.now).1 =
                    some e := by rw [hco]
                have hlt := (cacheRead_fst_some hfst).1
                cases hres
                exact hlt
            | none =>
                cases hr : env.resolver with
                | none =>
                    rw [(coord_miss_fail hf ha hco hr).1] at hres
                    simp at hres
                | some p =>
                    rcases p with ⟨u', ct'⟩
                    rw [(coord_miss_ok hf ha hco hr).2.2.2.1] at hrc
                    simp at hrc

/-- Witness for C1: a concrete expired entry (expiry 100, read at 120) is
treated as absent and deleted. -/
theorem claim_C1_witness :
    lookupKey [("a", (⟨⟨"u", none⟩, 100, "audio/mpeg"⟩ : ResEntry))] "a" =
      some ⟨⟨"u", none⟩, 100, "audio/mpeg"⟩ ∧ (120 : Nat) > 100 ∧
    ((cacheRead [("a", ⟨⟨"u", none⟩, 100, "audio/mpeg"⟩)] "a" 120).1 =
      none ∧
     lookupKey
      (cacheRead [("a", ⟨⟨"u", none⟩, 100, "audio/mpeg"⟩)] "a" 120).2 "a" =
      none) :=
  ⟨by decide, by decide,
   claim_C1_no_expired_entry_returned.2.1
     [("a", ⟨⟨"u", none⟩, 100, "audio/mpeg"⟩)] "a" 120
     ⟨⟨"u", none⟩, 100, "audio/mpeg"⟩ (by decide) (by decide)⟩

/-! ## Claim C3 -/

/-- C3 counterexample. The claim says a live ResolutionEntry is returned
without acquiring the per-identifier lock. In the code the lock is acquired
before the cache is consulted: with a live entry for `"a"` (expiry 100,
now 10) and a lock acquisition that times out, the live entry is NOT
returned (the call fails); and when acquisition succeeds, the successful
cache hit reports the lock as having been acquired. -/
theorem claim_C3_counterexample :
    failureLive [] "a" 10 = false ∧
    lookupKey [("a", (⟨⟨"u", none⟩, 100, "audio/mpeg"⟩ : ResEntry))] "a" =
      some ⟨⟨"u", none⟩, 100, "audio/mpeg"⟩ ∧ (10 : Nat) < 100 ∧
    (get_or_cache_audio_url
      ⟨[("a", ⟨⟨"u", none⟩, 100, "audio/mpeg"⟩)], [], []⟩ "a"
      ⟨10, false, false, none⟩).result = .failure ∧
    (get_or_cache_audio_url
      ⟨[("a", ⟨⟨"u", none⟩, 100, "audio/mpeg"⟩)], [], []⟩ "a"
      ⟨10, false, true, none⟩).result =
        .success ⟨"u", none⟩ 100 "audio/mpeg" ∧
    (get_or_cache_audio_url
      ⟨[("a", ⟨⟨"u", none⟩, 100, "audio/mpeg"⟩)], [], []⟩ "a"
      ⟨10, false, true, none⟩).lockAcquired = true := by
  decide

/-- C3 as amended: a live FailureEntry still causes an immediate failure
return before any lock or Resolver activity; but the per-identifier lock is
acquired unconditionally before the resolved-entry cache is consulted (so a
lock-acquisition timeout fails the call even when a live entry exists), the
cache is checked once — under the lock — and a live entry found there is
returned without a Resolver call, while the Resolver is invoked exactly on
a cache miss under the lock. -/
theorem claim_C3_amended (st : CoordState) (videoId : String)
    (env : CallEnv) :
    (failureLive st.failureCache videoId env.now = true →
      get_or_cache_audio_url st videoId env = ⟨.failure, st, false, false⟩) ∧
    (failureLive st.failureCache videoId env.now = false →
      env.acquireOk = false →
      (get_or_cache_audio_url st videoId env).result = .failure ∧
      (get_or_cache_audio_url st videoId env).resolverCalled = false ∧
      (get_or_cache_audio_url st videoId env).lockAcquired = false) ∧
    (failureLive st.failureCache videoId env.now = false →
      env.acquireOk = true →
      (get_or_cache_audio_url st videoId env).lockAcquired = true ∧
      (∀ e c', cacheRead st.audioCache videoId env.now = (some e, c') →
        (get_or_cache_audio_url st videoId env).result =
          .success e.url e.expire e.contentType ∧
        (get_or_cache_audio_url st videoId env).resolverCalled = false) ∧
      (∀ c', cacheRead st.audioCache videoId env.now = (none, c') →
        (get_or_cache_audio_url st videoId env).resolverCalled = true)) := by
  refine ⟨coord_failfast, ?_, ?_⟩
  · intro hf ha
    have h := coord_timeout hf ha
    exact ⟨h.1, h.2.1, h.2.2.1⟩
  · intro hf ha
    refine ⟨?_, ?_, ?_⟩
    · rcases hco : cacheRead st.audioCache videoId env.now with ⟨o, c'⟩
      cases o with
      | some e => exact (coord_hit hf ha hco).2.2.2.2
      | none =>
          cases hr : env.resolver with
          | none => exact (coord_miss_fail hf ha hco hr).2.2.2.2
          | some p =>
              rcases p with ⟨u, ct⟩
              exact (coord_miss_ok hf ha hco hr).2.2.2.2
    · intro e c' hco
      have h := coord_hit hf ha hco
      exact ⟨h.1, h.2.2.2.1⟩
    · intro c' hco
      cases hr : env.resolver with
      | none => exact (coord_miss_fail hf ha hco hr).2.2.2.1
      | some p =>
          rcases p with ⟨u, ct⟩
          exact (coord_miss_ok hf ha hco hr).2.2.2.1

/-- Witness for the amended C3: concrete live-entry hit under the lock. -/
theorem claim_C3_amended_witness :
    failureLive [] "a" 10 = false ∧
    cacheRead [("a", (⟨⟨"u", none⟩, 100, "audio/mpeg"⟩ : ResEntry))] "a" 10 =
      (some ⟨⟨"u", none⟩, 100, "audio/mpeg"⟩,
       [("a", ⟨⟨"u", none⟩, 100, "audio/mpeg"⟩)]) ∧
    (get_or_cache_audio_url
      ⟨[("a", ⟨⟨"u", none⟩, 100, "audio/mpeg"⟩)], [], []⟩ "a"
      ⟨10, false, true, none⟩).result =
        .success ⟨"u", none⟩ 100 "audio/mpeg" :=
  ⟨by decide, by decide,
   ((claim_C3_amended
      ⟨[("a", ⟨⟨"u", none⟩, 100, "audio/mpeg"⟩)], [], []⟩ "a"
      ⟨10, false, true, none⟩).2.2 (by decide) (by decide)).2.1
     ⟨⟨"u", none⟩, 100, "audio/mpeg"⟩
     [("a", ⟨⟨"u", none⟩, 100, "audio/mpeg"⟩)] (by decide) |>.1⟩

/-! ## Claim C5 -/

/-- C5 (confirmed). A failed resolution writes a FailureEntry stamped with
the current time; while that entry is live (strictly less than
`failureTtl` = 900 s old) every call short-circuits to failure without
invoking the Resolver; once the TTL has elapsed the next call (that gets
the lock and finds no fresh ResolutionEntry) invokes the Resolver again. -/
theorem claim_C5_negative_caching (st : CoordState) (videoId : String)
    (env : CallEnv) (t : Nat) :
    (failureLive st.failureCache videoId env.now = false →
      env.acquireOk = true →
      (cacheRead st.audioCache videoId env.now).1 = none →
      env.resolver = none →
      (get_or_cache_audio_url st videoId env).resolverCalled = true ∧
      lookupKey (get_or_cache_audio_url st videoId env).state.failureCache
        videoId = some env.now) ∧
    (lookupKey st.failureCache videoId = some t →
      (failureLive st.failureCache videoId env.now =
        decide (env.now < t + failureTtl))) ∧
    (failureLive st.failureCache videoId env.now = true →
      (get_or_cache_audio_url st videoId env).result = .failure ∧
      (get_or_cache_audio_url st videoId env).resolverCalled = false) ∧
    (lookupKey st.failureCache videoId = some t →
      env.now ≥ t + failureTtl →
      env.acquireOk = true →
      (cacheRead st.audioCache videoId env.now).1 = none →
      (get_or_cache_audio_url st videoId env).resolverCalled = true) := by
  have hmiss : ∀ (hf : failureLive st.failureCache videoId env.now = false)
      (ha : env.acquireOk = true)
      (hm : (cacheRead st.audioCache videoId env.now).1 = none),
      (get_or_cache_audio_url st videoId env).resolverCalled = true := by
    intro hf ha hm
    rcases hco : cacheRead st.audioCache videoId env.now with ⟨o, c'⟩
    rw [hco] at hm
    simp at hm
    subst hm
    cases hr : env.resolver with
    | none => exact (coord_miss_fail hf ha hco hr).2.2.2.1
    | some p =>
        rcases p with ⟨u, ct⟩
        exact (coord_miss_ok hf ha hco hr).2.2.2.1
  refine ⟨?_, ?_, ?_, ?_⟩
  · intro hf ha hm hr
    refine ⟨hmiss hf ha hm, ?_⟩
    rcases hco : cacheRead st.audioCache videoId env.now with ⟨o, c'⟩
    rw [hco] at hm
    simp at hm
    subst hm
    rw [(coord_miss_fail hf ha hco hr).2.2.1]
    exact lookupKey_insertKey_self _ _ _
  · intro hl
    unfold failureLive
    rw [hl]
  · intro hf
    rw [coord_failfast hf]
    exact ⟨rfl, rfl⟩
  · intro hl hge ha hm
    have hf : failureLive st.failureCache videoId env.now = false := by
      unfold failureLive
      rw [hl]
      simp
      omega
    exact hmiss hf ha hm

/-- Witness for C5: a concrete failing resolution at time 0 writes the
FailureEntry, which is live at time 899 and dead at time 900. -/
theorem claim_C5_witness :
    ((get_or_cache_audio_url ⟨[], [], []⟩ "a"
        ⟨0, false, true, none⟩).resolverCalled = true ∧
     lookupKey (get_or_cache_audio_url ⟨[], [], []⟩ "a"
        ⟨0, false, true, none⟩).state.failureCache "a" = some 0) ∧
    failureLive [("a", 0)] "a" 899 = decide ((899 : Nat) < 0 + failureTtl) ∧
    ((get_or_cache_audio_url ⟨[], [("a", 0)], []⟩ "a"
        ⟨899, false, true, none⟩).result = .failure ∧
     (get_or_cache_audio_url ⟨[], [("a", 0)], []⟩ "a"
        ⟨899, false, true, none⟩).resolverCalled = false) ∧
    (get_or_cache_audio_url ⟨[], [("a", 0)], []⟩ "a"
        ⟨900, false, true, none⟩).resolverCalled = true :=
  ⟨(claim_C5_negative_caching ⟨[], [], []⟩ "a" ⟨0, false, true, none⟩ 0).1
      (by decide) (by decide) (by decide) (by decide),
   (claim_C5_negative_caching ⟨[], [("a", 0)], []⟩ "a"
      ⟨899, false, true, none⟩ 0).2.1 (by decide),
   (claim_C5_negative_caching ⟨[], [("a", 0)], []⟩ "a"
      ⟨899, false, true, none⟩ 0).2.2.1 (by decide),
   (claim_C5_negative_caching ⟨[], [("a", 0)], []⟩ "a"
      ⟨900, false, true, none⟩ 0).2.2.2 (by decide) (by decide) (by decide)
      (by decide)⟩

/-! ## Claim C6 -/

/-- C6 counterexample. The claim says the lock-timeout return is distinct
from a resolution failure. In the code both paths return the same
`(None, None, None)`: below, the first call is the lock-timeout path (no
Resolver call) and the second is a genuine resolution failure (Resolver
called), yet the returned values are equal. -/
theorem claim_C6_counterexample :
    (get_or_cache_audio_url ⟨[], [], []⟩ "a"
      ⟨10, false, false, none⟩).resolverCalled = false ∧
    (get_or_cache_audio_url ⟨[], [], []⟩ "a"
      ⟨10, false, true, none⟩).resolverCalled = true ∧
    (get_or_cache_audio_url ⟨[], [], []⟩ "a"
      ⟨10, false, false, none⟩).result =
    (get_or_cache_audio_url ⟨[], [], []⟩ "a"
      ⟨10, false, true, none⟩).result := by
  decide

/-- C6 as amended: on lock-acquisition timeout the call returns the same
failure value `(None, None, None)` as a resolution failure (the two are
not distinguishable by the caller), it removes the stale lock handle from
the registry (clearing the whole registry when more than 100 handles
remain), it does not invoke the Resolver, and it writes no FailureEntry
and leaves the resolved-entry cache untouched. -/
theorem claim_C6_amended (st : CoordState) (videoId : String)
    (env : CallEnv)
    (hf : failureLive st.failureCache videoId env.now = false)
    (ha : env.acquireOk = false) :
    (get_or_cache_audio_url st videoId env).result = .failure ∧
    (get_or_cache_audio_url st videoId env).resolverCalled = false ∧
    lookupKey (get_or_cache_audio_url st videoId env).state.locks videoId =
      none ∧
    (get_or_cache_audio_url st videoId env).state.failureCache =
      st.failureCache ∧
    (get_or_cache_audio_url st videoId env).state.audioCache =
      st.audioCache := by
  have h := coord_timeout hf ha
  exact ⟨h.1, h.2.1, h.2.2.2.2.2, h.2.2.2.2.1, h.2.2.2.1⟩

/-- Witness for the amended C6 at a concrete timed-out acquisition. -/
theorem claim_C6_amended_witness :
    (get_or_cache_audio_url ⟨[], [("b", 500)], [("a", ⟨1, some 2⟩)]⟩ "a"
      ⟨10, false, false, none⟩).result = .failure ∧
    (get_or_cache_audio_url ⟨[], [("b", 500)], [("a", ⟨1, some 2⟩)]⟩ "a"
      ⟨10, false, false, none⟩).resolverCalled = false ∧
    lookupKey (get_or_cache_audio_url
      ⟨[], [("b", 500)], [("a", ⟨1, some 2⟩)]⟩ "a"
      ⟨10, false, false, none⟩).state.locks "a" = none ∧
    (get_or_cache_audio_url ⟨[], [("b", 500)], [("a", ⟨1, some 2⟩)]⟩ "a"
      ⟨10, false, false, none⟩).state.failureCache = [("b", 500)] ∧
    (get_or_cache_audio_url ⟨[], [("b", 500)], [("a", ⟨1, some 2⟩)]⟩ "a"
      ⟨10, false, false, none⟩).state.audioCache = [] :=
  claim_C6_amended ⟨[], [("b", 500)], [("a", ⟨1, some 2⟩)]⟩ "a"
    ⟨10, false, false, none⟩ (by decide) (by decide)

/-! ## Claim C7 -/

/-- C7 (confirmed). A lock handle held longer than the 30-second staleness
threshold is removed by the next `cleanup_locks` sweep: afterwards the
identifier no longer maps to any handle in the registry. -/
theorem claim_C7_stale_lock_swept (locks : LockMap) (videoId : String)
    (l : TimedLock) (t now : Nat)
    (hl : lookupKey locks videoId = some l)
    (hheld : l.isHeld = true)
    (ht : l.acquireTime = some t)
    (hstale : now > t + lockStaleThreshold) :
    lookupKey (cleanup_locks locks now) videoId = none := by
  have hmem : (videoId, l) ∈ locks := lookupKey_some_mem hl
  have hrem : shouldRemoveLock l now = true := by
    unfold shouldRemoveLock
    rw [ht]
    simp [hheld]
    omega
  have hmem2 : videoId ∈
      (locks.filter (fun p => shouldRemoveLock p.2 now)).map (·.1) := by
    exact List.mem_map.mpr
      ⟨(videoId, l), List.mem_filter.mpr ⟨hmem, hrem⟩, rfl⟩
  unfold cleanup_locks
  exact foldl_eraseKey_mem hmem2

/-- Witness for C7: a handle acquired at t=0 and swept at t=31. -/
theorem claim_C7_witness :
    lookupKey [("a", (⟨1, some 0⟩ : TimedLock))] "a" = some ⟨1, some 0⟩ ∧
    (⟨1, some 0⟩ : TimedLock).isHeld = true ∧ (31 : Nat) > 0 + 30 ∧
    lookupKey (cleanup_locks [("a", ⟨1, some 0⟩)] 31) "a" = none :=
  ⟨by decide, by decide, by decide,
   claim_C7_stale_lock_swept [("a", ⟨1, some 0⟩)] "a" ⟨1, some 0⟩ 0 31
     (by decide) (by decide) (by decide) (by decide)⟩

/-! ## Claim C10 -/

/-- C10 counterexample. The claim says a failure return leaves the
resolved-entry cache unchanged. But when the call finds an expired entry
(expiry 5, now 10) and the Resolver then fails, the call returns failure
AND has deleted the expired entry, so the cache did change. -/
theorem claim_C10_counterexample :
    (get_or_cache_audio_url
      ⟨[("a", ⟨⟨"u", none⟩, 5, "audio/mpeg"⟩)], [], []⟩ "a"
      ⟨10, false, true, none⟩).result = .failure ∧
    (get_or_cache_audio_url
      ⟨[("a", ⟨⟨"u", none⟩, 5, "audio/mpeg"⟩)], [], []⟩ "a"
      ⟨10, false, true, none⟩).state.audioCache ≠
      [("a", ⟨⟨"u", none⟩, 5, "audio/mpeg"⟩)] := by
  decide

/-- C10 as amended: a successful triple is always backed by the cache (the
exact triple is under the identifier in the post-state, whether it came
from the cache read or was just written), and on a failure return the only
possible change to the resolved-entry cache is the deletion of an
already-expired entry for that identifier — live entries are never touched
by a failing call. -/
theorem claim_C10_amended (st : CoordState) (videoId : String)
    (env : CallEnv) :
    (∀ u T ct,
      (get_or_cache_audio_url st videoId env).result = .success u T ct →
      lookupKey (get_or_cache_audio_url st videoId env).state.audioCache
        videoId = some ⟨u, T, ct⟩) ∧
    ((get_or_cache_audio_url st videoId env).result = .failure →
      (get_or_cache_audio_url st videoId env).state.audioCache =
        st.audioCache ∨
      (∃ e, lookupKey st.audioCache videoId = some e ∧ e.expire ≤ env.now ∧
        (get_or_cache_audio_url st videoId env).state.audioCache =
          eraseKey st.audioCache videoId)) := by
  constructor
  · intro u T ct hres
    cases hf : failureLive st.failureCache videoId env.now with
    | true => rw [coord_failfast hf] at hres; simp at hres
    | false =>
        cases ha : env.acquireOk with
        | false => rw [(coord_timeout hf ha).1] at hres; simp at hres
        | true =>
            rcases hco : cacheRead st.audioCache videoId env.now with ⟨o, c'⟩
            cases o with
            | some e =>
                have hit := coord_hit hf ha hco
                rw [hit.1] at hres
                cases hres
                rw [hit.2.1]
                have hfst : (cacheRead st.audioCache videoId env.now).1 =
                    some e := by rw [hco]
                rcases cacheRead_fst_some hfst with ⟨_, hlk, hsnd⟩
                have hc' : c' = st.audioCache := by
                  rw [hco] at hsnd; exact hsnd
                rw [hc']
                exact hlk
            | none =>
                cases hr : env.resolver with
                | none =>
                    rw [(coord_miss_fail hf ha hco hr).1] at hres
                    simp at hres
                | some p =>
                    rcases p with ⟨u', ct'⟩
                    have hok := coord_miss_ok hf ha hco hr
                    rw [hok.1] at hres
                    cases hres
                    rw [hok.2.1]
                    exact lookupKey_insertKey_self _ _ _
  · intro hres
    cases hf : failureLive st.failureCache videoId env.now with
    | true => rw [coord_failfast hf]; exact Or.inl rfl
    | false =>
        cases ha : env.acquireOk with
        | false => exact Or.inl (coord_timeout hf ha).2.2.2.1
        | true =>
            rcases hco : cacheRead st.audioCache videoId env.now with ⟨o, c'⟩
            cases o with
            | some e =>
                rw [(coord_hit hf ha hco).1] at hres
                simp at hres
            | none =>
                cases hr : env.resolver with
                | none =>
                    have hmf := coord_miss_fail hf ha hco hr
                    cases hlk : lookupKey st.audioCache videoId with
                    | none =>
                        left
                        rw [hmf.2.1]
                        have : cacheRead st.audioCache videoId env.now =
                            (none, st.audioCache) := cacheRead_absent hlk
                        rw [this] at hco
                        exact (Prod.mk.injEq _ _ _ _).mp hco |>.2.symm ▸ rfl
                    | some e =>
                        by_cases hexp : env.now < e.expire
                        · rw [cacheRead_hit hlk hexp] at hco
                          simp at hco
                        · right
                          refine ⟨e, rfl, by omega, ?_⟩
                          rw [hmf.2.1]
                          rw [cacheRead_expired hlk hexp] at hco
                          exact ((Prod.mk.injEq _ _ _ _).mp hco).2.symm
                | some p =>
                    rcases p with ⟨u', ct'⟩
                    rw [(coord_miss_ok hf ha hco hr).1] at hres
                    simp at hres

/-- Witness for the amended C10: a fresh successful resolution is in the
cache under the identifier on return. -/
theorem claim_C10_amended_witness :
    (get_or_cache_audio_url ⟨[], [], []⟩ "a"
      ⟨10, false, true, some (⟨"u", some 5000⟩, "audio/mp4")⟩).result =
      .success ⟨"u", some 5000⟩ 5000 "audio/mp4" ∧
    lookupKey (get_or_cache_audio_url ⟨[], [], []⟩ "a"
      ⟨10, false, true, some (⟨"u", some 5000⟩, "audio/mp4")⟩).state.audioCache
      "a" = some ⟨⟨"u", some 5000⟩, 5000, "audio/mp4"⟩ :=
  ⟨by decide,
   (claim_C10_amended ⟨[], [], []⟩ "a"
      ⟨10, false, true, some (⟨"u", some 5000⟩, "audio/mp4")⟩).1
     ⟨"u", some 5000⟩ 5000 "audio/mp4" (by decide)⟩

/-! ## Claims C8 and C9 -/

theorem ytAudioResponseHeaders_spec (videoId ct : String)
    (uh : List (String × String)) :
    lookupKey (ytAudioResponseHeaders videoId ct uh) "Content-Type" =
      some ct ∧
    lookupKey (ytAudioResponseHeaders videoId ct uh) "Content-Disposition" =
      some ("inline; filename=\"" ++ videoId ++ ".mp3\"") ∧
    lookupKey (ytAudioResponseHeaders videoId ct uh) "Accept-Ranges" =
      some "bytes" ∧
    lookupKey (ytAudioResponseHeaders videoId ct uh) "Content-Length" =
      lookupKey uh "Content-Length" ∧
    lookupKey (ytAudioResponseHeaders videoId ct uh) "Content-Range" =
      lookupKey uh "Content-Range" := by
  rcases h1 : lookupKey uh "Content-Length" with _ | v1 <;>
  rcases h2 : lookupKey uh "Content-Range" with _ | v2 <;>
  rcases h3 : lookupKey uh "Content-Encoding" with _ | v3 <;>
    simp [ytAudioResponseHeaders, lookupKey, h1, h2, h3]

/-- When the upstream connection succeeds, `get_yt_audio` either fails
before contacting it (a JSON error with no upstream request) or returns a
`StreamingResponse` with the upstream status and the constructed
headers, having sent exactly `upstreamRequestHeaders range` upstream. -/
theorem yt_ok_characterize (cache : Cache) (videoId : String) (now : Nat)
    (range : Option String) (extract : ExtractOutcome) (status : Nat)
    (uh : List (String × String)) :
    (∃ m, get_yt_audio cache videoId now range extract (.ok status uh) =
      (.jsonError m, (cacheRead cache videoId now).2, [])) ∨
    (∃ ct cache2,
      get_yt_audio cache videoId now range extract (.ok status uh) =
      (.stream status (ytAudioResponseHeaders videoId ct uh), cache2,
       upstreamRequestHeaders range)) := by
  rcases hco : cacheRead cache videoId now with ⟨o, c1⟩
  cases o with
  | some e =>
      right
      exact ⟨e.contentType, c1, by unfold get_yt_audio; rw [hco]⟩
  | none =>
      cases extract with
      | noInfo => left; exact ⟨_, by unfold get_yt_audio; rw [hco]⟩
      | noFormats => left; exact ⟨_, by unfold get_yt_audio; rw [hco]⟩
      | noAudioUrl => left; exact ⟨_, by unfold get_yt_audio; rw [hco]⟩
      | exn m => left; exact ⟨_, by unfold get_yt_audio; rw [hco]⟩
      | ok u ct =>
          right
          exact ⟨ct, _, by unfold get_yt_audio; rw [hco]⟩

/-- C8 counterexample. The claim says `Accept-Ranges` is present on the
client response exactly when the upstream supplied it. Here the upstream
supplies no `Accept-Ranges` header at all, yet the client response carries
`Accept-Ranges: bytes` (the endpoint always sets it). -/
theorem claim_C8_counterexample :
    lookupKey ([] : List (String × String)) "Accept-Ranges" = none ∧
    (get_yt_audio [("a", ⟨⟨"u", none⟩, 100, "audio/mpeg"⟩)] "a" 10
      (some "bytes=1000-1999") .noInfo (.ok 206 [])).1 =
      .stream 206 (ytAudioResponseHeaders "a" "audio/mpeg" []) ∧
    lookupKey (ytAudioResponseHeaders "a" "audio/mpeg" []) "Accept-Ranges" =
      some "bytes" := by
  decide

/-- C8 as amended: for every streaming request the client's `Range` header
is forwarded verbatim upstream; the client response carries the upstream
status code, a `Content-Disposition` of `inline; filename="{id}.mp3"`, a
`Content-Type`, and `Content-Length` / `Content-Range` exactly when the
upstream supplied them — but `Accept-Ranges: bytes` is always set by the
proxy, regardless of what the upstream sent. -/
theorem claim_C8_amended (cache : Cache) (videoId : String) (now : Nat)
    (range : Option String) (extract : ExtractOutcome) (status : Nat)
    (uh : List (String × String)) :
    lookupKey (upstreamRequestHeaders range) "Range" = range ∧
    (∀ s hs,
      (get_yt_audio cache videoId now range extract (.ok status uh)).1 =
        .stream s hs →
      (get_yt_audio cache videoId now range extract (.ok status uh)).2.2 =
        upstreamRequestHeaders range ∧
      s = status ∧
      lookupKey hs "Content-Disposition" =
        some ("inline; filename=\"" ++ videoId ++ ".mp3\"") ∧
      (∃ ct, lookupKey hs "Content-Type" = some ct) ∧
      lookupKey hs "Content-Length" = lookupKey uh "Content-Length" ∧
      lookupKey hs "Content-Range" = lookupKey uh "Content-Range" ∧
      lookupKey hs "Accept-Ranges" = some "bytes") := by
  constructor
  · cases range <;> simp [upstreamRequestHeaders, lookupKey]
  · intro s hs hres
    rcases yt_ok_characterize cache videoId now range extract status uh with
      ⟨m, heq⟩ | ⟨ct, cache2, heq⟩
    · rw [heq] at hres
      simp at hres
    · rw [heq] at hres ⊢
      simp at hres
      rcases hres with ⟨hs', hhs⟩
      subst hs'
      subst hhs
      have hspec := ytAudioResponseHeaders_spec videoId ct uh
      exact ⟨rfl, rfl, hspec.2.1, ⟨ct, hspec.1⟩, hspec.2.2.2.1,
             hspec.2.2.2.2, hspec.2.2.1⟩

/-- Witness for the amended C8 at a concrete ranged request with an
upstream 206 response supplying `Content-Range` but no `Accept-Ranges`. -/
theorem claim_C8_amended_witness :
    lookupKey (upstreamRequestHeaders (some "bytes=1000-1999")) "Range" =
      some "bytes=1000-1999" ∧
    lookupKey (ytAudioResponseHeaders "a" "audio/mpeg"
        [("Content-Range", "bytes 1000-1999/10000")]) "Content-Range" =
      lookupKey [("Content-Range", "bytes 1000-1999/10000")]
        "Content-Range" ∧
    lookupKey (ytAudioResponseHeaders "a" "audio/mpeg"
        [("Content-Range", "bytes 1000-1999/10000")]) "Accept-Ranges" =
      some "bytes" :=
  ⟨(claim_C8_amended [("a", ⟨⟨"u", none⟩, 100, "audio/mpeg"⟩)] "a" 10
      (some "bytes=1000-1999") .noInfo 206
      [("Content-Range", "bytes 1000-1999/10000")]).1,
   ((claim_C8_amended [("a", ⟨⟨"u", none⟩, 100, "audio/mpeg"⟩)] "a" 10
      (some "bytes=1000-1999") .noInfo 206
      [("Content-Range", "bytes 1000-1999/10000")]).2 206
      (ytAudioResponseHeaders "a" "audio/mpeg"
        [("Content-Range", "bytes 1000-1999/10000")])
      (by decide)).2.2.2.2.2.1,
   ((claim_C8_amended [("a", ⟨⟨"u", none⟩, 100, "audio/mpeg"⟩)] "a" 10
      (some "bytes=1000-1999") .noInfo 206
      [("Content-Range", "bytes 1000-1999/10000")]).2 206
      (ytAudioResponseHeaders "a" "audio/mpeg"
        [("Content-Range", "bytes 1000-1999/10000")])
      (by decide)).2.2.2.2.2.2⟩

/-- C9 (confirmed). An upstream connect failure (timeout or request
exception) before streaming begins yields a structured JSON error payload
— either the dedicated connect-failure message, or an extraction error
that prevented any upstream request (`[]` request headers) — and a
streaming byte response exists only when the upstream connection
succeeded, with the upstream's own status code. No raw exception escapes:
every failure is a `jsonError` value. -/
theorem claim_C9_no_truncated_stream (cache : Cache) (videoId : String)
    (now : Nat) (range : Option String) (extract : ExtractOutcome)
    (upstream : UpstreamResult) :
    (upstream = .timeout →
      (get_yt_audio cache videoId now range extract upstream).1 =
        .jsonError "Timeout when requesting audio stream" ∨
      ((get_yt_audio cache videoId now range extract upstream).2.2 = [] ∧
       ∃ m, (get_yt_audio cache videoId now range extract upstream).1 =
         .jsonError m)) ∧
    (∀ em, upstream = .reqError em →
      (get_yt_audio cache videoId now range extract upstream).1 =
        .jsonError ("Error requesting audio stream: " ++ em) ∨
      ((get_yt_audio cache videoId now range extract upstream).2.2 = [] ∧
       ∃ m, (get_yt_audio cache videoId now range extract upstream).1 =
         .jsonError m)) ∧
    (∀ s hs,
      (get_yt_audio cache videoId now range extract upstream).1 =
        .stream s hs →
      ∃ uh, upstream = .ok s uh) := by
  rcases hco : cacheRead cache videoId now with ⟨o, c1⟩
  cases o <;> cases extract <;> cases upstream <;>
    simp [get_yt_audio, hco]

/-- Witness for C9: a concrete upstream timeout after a cache hit. -/
theorem claim_C9_witness :
    (get_yt_audio [("a", ⟨⟨"u", none⟩, 100, "audio/mpeg"⟩)] "a" 10 none
      .noInfo .timeout).1 =
      .jsonError "Timeout when requesting audio stream" ∨
    ((get_yt_audio [("a", ⟨⟨"u", none⟩, 100, "audio/mpeg"⟩)] "a" 10 none
      .noInfo .timeout).2.2 = [] ∧
     ∃ m, (get_yt_audio [("a", ⟨⟨"u", none⟩, 100, "audio/mpeg"⟩)] "a" 10
       none .noInfo .timeout).1 = .jsonError m) :=
  (claim_C9_no_truncated_stream [("a", ⟨⟨"u", none⟩, 100, "audio/mpeg"⟩)]
    "a" 10 none .noInfo .timeout).1 rfl

/-! ## Claim C4 -/

/-- C4 (the code contradicts the claim and its own design). Three tasks
submitted in order background (`LOW`), playback-critical (`CRITICAL`),
ambient (`MEDIUM`) with no workers free execute in submission order
`[bg, crit, amb]`, not in the claimed priority order `[crit, amb, bg]`:
`PriorityThreadPool.submit` hands every task directly to the FIFO
`ThreadPoolExecutor`, and the pool's `PriorityQueue` (`task_queue`) stays
empty — even though the `PriorityTask` comparator itself orders `crit`
and `amb` ahead of `bg`. -/
theorem claim_C4_fifo_not_priority :
    (submitAll PriorityThreadPool.empty
      [(.low, "bg"), (.critical, "crit"), (.medium, "amb")] 0).executionOrder
      = ["bg", "crit", "amb"] ∧
    (["bg", "crit", "amb"] : List String) ≠ ["crit", "amb", "bg"] ∧
    (submitAll PriorityThreadPool.empty
      [(.low, "bg"), (.critical, "crit"), (.medium, "amb")] 0).task_queue
      = [] ∧
    priorityTaskLt ⟨.critical, "crit", 1⟩ ⟨.low, "bg", 0⟩ = true ∧
    priorityTaskLt ⟨.medium, "amb", 2⟩ ⟨.low, "bg", 0⟩ = true := by
  decide

/-! ## Claim C2: counterexample traces -/

/-- C2 counterexample. Three concrete schedules of the interleaved model
refute the claim:

* With a failing Resolver, no timeouts and no sweeps, two callers that
  both pass the failure-cache check before the first failure is recorded
  invoke the Resolver twice (the double-check under the lock consults only
  the success cache, `main.py:259`, not the failure cache).
* With one lock-acquisition timeout, the timed-out caller deletes the
  registry entry (`main.py:251-252`); a third caller then creates a fresh
  `TimedLock`, acquires it immediately, and starts a second Resolver call
  while the first is still in flight: two calls in flight simultaneously,
  and one caller has already returned failure while the others resolve.
* With no timeouts and a succeeding Resolver, a `cleanup_locks` draw
  (`main.py:240-241`) falling between one caller's `setdefault`
  (`main.py:244`) and its `acquire` (`main.py:247`) deletes the caller's
  still-unlocked handle; the next caller's `setdefault` creates a fresh
  `TimedLock`, acquires it instantly, and both callers end up running
  Resolver calls in flight at the same time. -/
theorem claim_C2_counterexample :
    (Concurrent.run 0 (fun _ => none) (Concurrent.init 2)
      [.thread 0 true, .thread 1 true, .thread 0 true, .thread 0 true,
       .thread 0 true, .thread 0 true, .thread 0 true, .thread 1 true,
       .thread 1 true, .thread 1 true]).resolverCount = 2 ∧
    (Concurrent.run 0 (fun _ => none) (Concurrent.init 3)
      [.thread 0 true, .thread 0 true, .thread 0 true, .thread 0 true,
       .thread 1 true, .thread 1 true, .thread 1 false, .thread 2 true,
       .thread 2 true, .thread 2 true, .thread 2 true]).resolverCount
      = 2 ∧
    Concurrent.inflight (Concurrent.run 0 (fun _ => none)
      (Concurrent.init 3)
      [.thread 0 true, .thread 0 true, .thread 0 true, .thread 0 true,
       .thread 1 true, .thread 1 true, .thread 1 false, .thread 2 true,
       .thread 2 true, .thread 2 true, .thread 2 true]) = 2 ∧
    (Concurrent.run 0 (fun _ => none) (Concurrent.init 3)
      [.thread 0 true, .thread 0 true, .thread 0 true, .thread 0 true,
       .thread 1 true, .thread 1 true, .thread 1 false, .thread 2 true,
       .thread 2 true, .thread 2 true, .thread 2 true]).threads[1]?
      = some (.done .failure) ∧
    (Concurrent.run 0 (fun _ => some (⟨"u", none⟩, "audio/mpeg"))
      (Concurrent.init 2)
      [.thread 0 true, .thread 0 true, .sweep, .thread 1 true,
       .thread 1 true, .thread 1 true, .thread 1 true, .thread 0 true,
       .thread 0 true]).resolverCount = 2 ∧
    Concurrent.inflight (Concurrent.run 0
      (fun _ => some (⟨"u", none⟩, "audio/mpeg")) (Concurrent.init 2)
      [.thread 0 true, .thread 0 true, .sweep, .thread 1 true,
       .thread 1 true, .thread 1 true, .thread 1 true, .thread 0 true,
       .thread 0 true]) = 2 := by
  decide

namespace Concurrent

/-- A schedule in which no `lock.acquire(timeout=5)` call times out and no
`cleanup_locks` draw or `force_cleanup_locks` sweep runs: every entry is a
caller step with a successful acquire choice. -/
def QuietSched (sched : List SEntry) : Prop :=
  ∀ e ∈ sched, ∃ tid, e = SEntry.thread tid true

/-- A Resolver that succeeds on every invocation, with an expiry that has
not already passed. -/
def SuccBehavior (now : Nat) (behavior : Nat → Option (Url × String)) :
    Prop :=
  ∀ k, ∃ u ct, behavior k = some (u, ct) ∧
    now < parse_expire_from_url u now

/-- The singleflight invariant of quiet successful runs. -/
structure Inv (now : Nat) (m : GState) : Prop where
  hfail : m.failureAt = none
  hcnt : m.resolverCount ≤ 1
  hcache : ∀ e, m.cache = some e → now < e.expire ∧ m.resolverCount = 1
  hregN : m.registry = none → m.holders = [] ∧ m.nextGen = 0 ∧
    (∀ (tid : Nat) (pc : PC), m.threads[tid]? = some pc →
      pc = PC.start ∨ pc = PC.passedFailure)
  hregS : ∀ g, m.registry = some g → g = 0 ∧ m.nextGen = 1 ∧
    ∃ h, m.holders = [(0, h)]
  hlock : ∀ (tid g : Nat), m.threads[tid]? = some (PC.locked g) →
    g = 0 ∧ m.holders = [(0, some tid)]
  hres : ∀ (tid g k : Nat), m.threads[tid]? = some (PC.resolving g k) →
    g = 0 ∧ m.holders = [(0, some tid)] ∧ m.resolverCount = 1 ∧
    m.cache = none
  hrel : ∀ (tid g : Nat) (r : CResult),
    m.threads[tid]? = some (PC.releasing g r) →
    g = 0 ∧ m.holders = [(0, some tid)] ∧ m.resolverCount = 1 ∧
    ∃ e, r = .success e ∧ m.cache = some e
  hdone : ∀ (tid : Nat) (r : CResult), m.threads[tid]? = some (PC.done r) →
    ∃ e, r = .success e ∧ m.cache = some e
  hone : m.resolverCount = 1 →
    (∃ (tid g k : Nat), m.threads[tid]? = some (PC.resolving g k)) ∨
    (∃ e, m.cache = some e)

theorem replicate_start_eq {n tid : Nat} {pc : PC}
    (h : (List.replicate n PC.start)[tid]? = some pc) : pc = PC.start := by
  rw [List.getElem?_replicate] at h
  split at h
  · exact (Option.some.inj h).symm
  · simp at h

theorem Inv_init (now n : Nat) : Inv now (init n) := by
  refine ⟨rfl, by simp [init], ?_, ?_, ?_, ?_, ?_, ?_, ?_, ?_⟩
  · intro e he; simp [init] at he
  · intro _
    refine ⟨rfl, rfl, ?_⟩
    intro tid pc hpc
    exact Or.inl (replicate_start_eq hpc)
  · intro g hg; simp [init] at hg
  · intro tid g hpc
    cases replicate_start_eq hpc
  · intro tid g k hpc
    cases replicate_start_eq hpc
  · intro tid g r hpc
    cases replicate_start_eq hpc
  · intro tid r hpc
    cases replicate_start_eq hpc
  · intro h; simp [init] at h

/-- Transitions that only move one thread between the passive program
points (`start`, `passedFailure`, `acquiring`) preserve the invariant. -/
theorem Inv_setThread_aux {now : Nat} {m : GState} {tid : Nat}
    {pcOld pcNew : PC}
    (hInv : Inv now m) (hpc : m.threads[tid]? = some pcOld)
    (hOld : pcOld = PC.start ∨ pcOld = PC.passedFailure ∨
      ∃ g, pcOld = PC.acquiring g)
    (hNew : pcNew = PC.passedFailure ∨
      (m.registry ≠ none ∧ ∃ g, pcNew = PC.acquiring g)) :
    Inv now (setThread m tid pcNew) := by
  have hlen : tid < m.threads.length := (List.getElem?_eq_some_iff.mp hpc).1
  have hset : ∀ (tid' : Nat) (pc' : PC),
      (m.threads.set tid pcNew)[tid']? = some pc' →
      (tid' = tid ∧ pc' = pcNew) ∨ (tid ≠ tid' ∧ m.threads[tid']? = some pc') := by
    intro tid' pc' h
    by_cases htid : tid = tid'
    · subst htid
      rw [List.getElem?_set_self hlen] at h
      exact Or.inl ⟨rfl, (Option.some.inj h).symm⟩
    · rw [List.getElem?_set_ne htid] at h
      exact Or.inr ⟨htid, h⟩
  have hNewNotActive : ∀ (P : PC → Prop),
      (∀ g, ¬ P (PC.acquiring g)) → ¬ P PC.passedFailure → ¬ P pcNew := by
    intro P hacq hpf hP
    rcases hNew with hN | ⟨_, g', hN⟩
    · rw [hN] at hP; exact hpf hP
    · rw [hN] at hP; exact hacq g' hP
  refine ⟨hInv.hfail, hInv.hcnt, hInv.hcache, ?_, hInv.hregS, ?_, ?_, ?_,
    ?_, ?_⟩
  · intro hreg
    obtain ⟨hh, hn, hthreads⟩ := hInv.hregN hreg
    refine ⟨hh, hn, ?_⟩
    intro tid' pc' h
    rcases hset tid' pc' h with ⟨_, hpc'⟩ | ⟨_, h'⟩
    · subst hpc'
      rcases hNew with hN | ⟨hrne, _⟩
      · exact Or.inr hN
      · exact absurd hreg hrne
    · exact hthreads tid' pc' h'
  · intro tid' g h
    rcases hset tid' _ h with ⟨_, hpcN⟩ | ⟨_, h'⟩
    · exact absurd rfl (hpcN ▸ hNewNotActive (fun pc => PC.locked g = pc)
        (fun g' hh => by cases hh) (fun hh => by cases hh))
    · exact hInv.hlock tid' g h'
  · intro tid' g k h
    rcases hset tid' _ h with ⟨_, hpcN⟩ | ⟨_, h'⟩
    · exact absurd rfl (hpcN ▸ hNewNotActive (fun pc => PC.resolving g k = pc)
        (fun g' hh => by cases hh) (fun hh => by cases hh))
    · exact hInv.hres tid' g k h'
  · intro tid' g r h
    rcases hset tid' _ h with ⟨_, hpcN⟩ | ⟨_, h'⟩
    · exact absurd rfl (hpcN ▸ hNewNotActive (fun pc => PC.releasing g r = pc)
        (fun g' hh => by cases hh) (fun hh => by cases hh))
    · exact hInv.hrel tid' g r h'
  · intro tid' r h
    rcases hset tid' _ h with ⟨_, hpcN⟩ | ⟨_, h'⟩
    · exact absurd rfl (hpcN ▸ hNewNotActive (fun pc => PC.done r = pc)
        (fun g' hh => by cases hh) (fun hh => by cases hh))
    · exact hInv.hdone tid' r h'
  · intro h1
    rcases hInv.hone h1 with ⟨tid'', g, k, h''⟩ | hc
    · left
      have htid : tid ≠ tid'' := by
        intro he
        subst he
        rw [hpc] at h''
        have hOldRes := Option.some.inj h''
        rcases hOld with hO | hO | ⟨g', hO⟩ <;> rw [hO] at hOldRes <;>
          cases hOldRes
      exact ⟨tid'', g, k, by
        simp only [setThread]
        rw [List.getElem?_set_ne htid]
        exact h''⟩
    · exact Or.inr hc

theorem set_lookup {l : List PC} {tid : Nat} {pcN : PC}
    (hlen : tid < l.length) (tid' : Nat) (pc' : PC)
    (h : (l.set tid pcN)[tid']? = some pc') :
    (tid' = tid ∧ pc' = pcN) ∨ (tid ≠ tid' ∧ l[tid']? = some pc') := by
  by_cases htid : tid = tid'
  · subst htid
    rw [List.getElem?_set_self hlen] at h
    exact Or.inl ⟨rfl, (Option.some.inj h).symm⟩
  · rw [List.getElem?_set_ne htid] at h
    exact Or.inr ⟨htid, h⟩

theorem holders_single_inj {m : GState} {a b : Option Nat}
    (h1 : m.holders = [(0, a)]) (h2 : m.holders = [(0, b)]) : a = b := by
  rw [h1] at h2
  simpa using h2

/-- One quiet step (no timeout choice) preserves the singleflight
invariant, given a Resolver that always succeeds freshly. -/
theorem step_preserves_Inv {now : Nat}
    {behavior : Nat → Option (Url × String)}
    (hb : SuccBehavior now behavior) {m : GState} (tid : Nat)
    (hInv : Inv now m) : Inv now (step now behavior m tid true) := by
  cases hpc : m.threads[tid]? with
  | none =>
      have hstep : step now behavior m tid true = m := by
        simp [step, hpc]
      rw [hstep]; exact hInv
  | some pc =>
      have hlen : tid < m.threads.length :=
        (List.getElem?_eq_some_iff.mp hpc).1
      cases pc with
      | start =>
          have hstep : step now behavior m tid true =
              setThread m tid PC.passedFailure := by
            simp [step, hpc, hInv.hfail, failureLiveAt, setThread]
          rw [hstep]
          exact Inv_setThread_aux hInv hpc (Or.inl rfl) (Or.inl rfl)
      | passedFailure =>
          cases hreg : m.registry with
          | some g =>
              have hstep : step now behavior m tid true =
                  setThread m tid (PC.acquiring g) := by
                simp [step, hpc, hreg, setThread]
              rw [hstep]
              exact Inv_setThread_aux hInv hpc (Or.inr (Or.inl rfl))
                (Or.inr ⟨by rw [hreg]; simp, g, rfl⟩)
          | none =>
              obtain ⟨hh, hn, hthreads⟩ := hInv.hregN hreg
              have hstep : step now behavior m tid true =
                  { m with registry := some m.nextGen,
                           nextGen := m.nextGen + 1,
                           holders := (m.nextGen, none) :: m.holders,
                           threads :=
                             m.threads.set tid (PC.acquiring m.nextGen) } := by
                simp [step, hpc, hreg]
              rw [hstep, hn, hh]
              refine ⟨hInv.hfail, hInv.hcnt, hInv.hcache, ?_, ?_, ?_, ?_,
                ?_, ?_, ?_⟩
              · intro habs; cases habs
              · intro g' hg'
                exact ⟨(Option.some.inj hg').symm, rfl, none, rfl⟩
              · intro tid' g' h
                rcases set_lookup hlen tid' _ h with ⟨_, hN⟩ | ⟨_, h'⟩
                · cases hN
                · rcases hthreads tid' _ h' with hS | hS <;> cases hS
              · intro tid' g' k h
                rcases set_lookup hlen tid' _ h with ⟨_, hN⟩ | ⟨_, h'⟩
                · cases hN
                · rcases hthreads tid' _ h' with hS | hS <;> cases hS
              · intro tid' g' r h
                rcases set_lookup hlen tid' _ h with ⟨_, hN⟩ | ⟨_, h'⟩
                · cases hN
                · rcases hthreads tid' _ h' with hS | hS <;> cases hS
              · intro tid' r h
                rcases set_lookup hlen tid' _ h with ⟨_, hN⟩ | ⟨_, h'⟩
                · cases hN
                · rcases hthreads tid' _ h' with hS | hS <;> cases hS
              · intro h1
                rcases hInv.hone h1 with ⟨tid'', g'', k'', h''⟩ | hc
                · rcases hthreads tid'' _ h'' with hS | hS <;> cases hS
                · exact Or.inr hc
      | acquiring g =>
          cases hlook : lookupKey m.holders g with
          | none =>
              have hstep : step now behavior m tid true = m := by
                simp [step, hpc, hlook]
              rw [hstep]; exact hInv
          | some hh =>
              cases hh with
              | some t' =>
                  have hstep : step now behavior m tid true = m := by
                    simp [step, hpc, hlook]
                  rw [hstep]; exact hInv
              | none =>
                  cases hreg : m.registry with
                  | none =>
                      obtain ⟨hh0, _, _⟩ := hInv.hregN hreg
                      rw [hh0] at hlook
                      cases hlook
                  | some g' =>
                      obtain ⟨hg'0, hn1, hld, hholds⟩ := hInv.hregS g' hreg
                      subst hg'0
                      have hlook' := hlook
                      rw [hholds] at hlook'
                      by_cases hg : (0 : Nat) = g
                      · subst hg
                        rw [lookupKey_cons, if_pos rfl] at hlook'
                        have hldnone : hld = none := Option.some.inj hlook'
                        subst hldnone
                        have hstep : step now behavior m tid true =
                            { m with
                              holders := updateKey m.holders 0
                                (fun _ => some tid)
                              threads :=
                                m.threads.set tid (PC.locked 0) } := by
                          simp [step, hpc, hlook]
                        have hupd : updateKey m.holders 0
                            (fun _ => some tid) = [(0, some tid)] := by
                          rw [hholds]; simp [updateKey]
                        rw [hstep, hupd]
                        refine ⟨hInv.hfail, hInv.hcnt, hInv.hcache, ?_, ?_,
                          ?_, ?_, ?_, ?_, ?_⟩
                        · intro habs
                          rw [hreg] at habs; cases habs
                        · intro g'' hg''
                          rw [hreg] at hg''
                          exact ⟨(Option.some.inj hg'').symm, hn1,
                            some tid, rfl⟩
                        · intro tid' g'' h
                          rcases set_lookup hlen tid' _ h with
                            ⟨htid, hN⟩ | ⟨_, h'⟩
                          · cases hN
                            exact ⟨rfl, htid ▸ rfl⟩
                          · have hH := (hInv.hlock tid' g'' h').2
                            have := holders_single_inj hholds hH
                            cases this
                        · intro tid' g'' k h
                          rcases set_lookup hlen tid' _ h with
                            ⟨_, hN⟩ | ⟨_, h'⟩
                          · cases hN
                          · have hH := (hInv.hres tid' g'' k h').2.1
                            have := holders_single_inj hholds hH
                            cases this
                        · intro tid' g'' r h
                          rcases set_lookup hlen tid' _ h with
                            ⟨_, hN⟩ | ⟨_, h'⟩
                          · cases hN
                          · have hH := (hInv.hrel tid' g'' r h').2.1
                            have := holders_single_inj hholds hH
                            cases this
                        · intro tid' r h
                          rcases set_lookup hlen tid' _ h with
                            ⟨_, hN⟩ | ⟨_, h'⟩
                          · cases hN
                          · exact hInv.hdone tid' r h'
                        · intro h1
                          rcases hInv.hone h1 with
                            ⟨tid'', g'', k'', h''⟩ | hc
                          · have hH := (hInv.hres tid'' g'' k'' h'').2.1
                            have := holders_single_inj hholds hH
                            cases this
                          · exact Or.inr hc
                      · rw [lookupKey_cons, if_neg hg] at hlook'
                        cases hlook'
      | locked g =>
          obtain ⟨hg0, hHold⟩ := hInv.hlock tid g hpc
          subst hg0
          cases hc : m.cache with
          | some e =>
              obtain ⟨hlt, hcnt1⟩ := hInv.hcache e hc
              have hstep : step now behavior m tid true =
                  { m with
                    holders := updateKey m.holders 0 (fun _ => none)
                    threads :=
                      m.threads.set tid (PC.done (.success e)) } := by
                simp [step, hpc, hc, hlt]
              have hupd : updateKey m.holders 0 (fun _ => none) =
                  [(0, none)] := by
                rw [hHold]; simp [updateKey]
              rw [hstep, hupd]
              refine ⟨hInv.hfail, hInv.hcnt, hInv.hcache, ?_, ?_, ?_, ?_,
                ?_, ?_, ?_⟩
              · intro hreg
                obtain ⟨_, _, hthreads⟩ := hInv.hregN hreg
                rcases hthreads tid _ hpc with hS | hS <;> cases hS
              · intro g'' hg''
                obtain ⟨ha, hb', _⟩ := hInv.hregS g'' hg''
                exact ⟨ha, hb', none, rfl⟩
              · intro tid' g'' h
                rcases set_lookup hlen tid' _ h with ⟨_, hN⟩ | ⟨htid, h'⟩
                · cases hN
                · have hH := (hInv.hlock tid' g'' h').2
                  have := holders_single_inj hHold hH
                  exact absurd (Option.some.inj this) htid
              · intro tid' g'' k h
                rcases set_lookup hlen tid' _ h with ⟨_, hN⟩ | ⟨htid, h'⟩
                · cases hN
                · have hH := (hInv.hres tid' g'' k h').2.1
                  have := holders_single_inj hHold hH
                  exact absurd (Option.some.inj this) htid
              · intro tid' g'' r h
                rcases set_lookup hlen tid' _ h with ⟨_, hN⟩ | ⟨htid, h'⟩
                · cases hN
                · have hH := (hInv.hrel tid' g'' r h').2.1
                  have := holders_single_inj hHold hH
                  exact absurd (Option.some.inj this) htid
              · intro tid' r h
                rcases set_lookup hlen tid' _ h with ⟨htid, hN⟩ | ⟨_, h'⟩
                · cases hN
                  exact ⟨e, rfl, hc⟩
                · exact hInv.hdone tid' r h'
              · intro _
                exact Or.inr ⟨e, hc⟩
          | none =>
              have hcnt0 : m.resolverCount = 0 := by
                rcases Nat.le_one_iff_eq_zero_or_eq_one.mp hInv.hcnt with
                  h0 | h1
                · exact h0
                · exfalso
                  rcases hInv.hone h1 with ⟨tid'', g'', k'', h''⟩ | ⟨e, he⟩
                  · have hH := (hInv.hres tid'' g'' k'' h'').2.1
                    have heq := Option.some.inj
                      (holders_single_inj hHold hH)
                    subst heq
                    rw [hpc] at h''
                    cases Option.some.inj h''
                  · rw [hc] at he; cases he
              have hstep : step now behavior m tid true =
                  { m with
                    resolverCount := m.resolverCount + 1
                    threads := m.threads.set tid
                      (PC.resolving 0 m.resolverCount) } := by
                simp [step, hpc, hc]
              rw [hstep, hcnt0]
              refine ⟨hInv.hfail, Nat.le_refl 1, ?_, ?_, ?_, ?_, ?_, ?_, ?_, ?_⟩
              · intro e he
                rw [hc] at he; cases he
              · intro hreg
                obtain ⟨_, _, hthreads⟩ := hInv.hregN hreg
                rcases hthreads tid _ hpc with hS | hS <;> cases hS
              · intro g'' hg''
                exact hInv.hregS g'' hg''
              · intro tid' g'' h
                rcases set_lookup hlen tid' _ h with ⟨_, hN⟩ | ⟨htid, h'⟩
                · cases hN
                · have hH := (hInv.hlock tid' g'' h').2
                  have := holders_single_inj hHold hH
                  exact absurd (Option.some.inj this) htid
              · intro tid' g'' k h
                rcases set_lookup hlen tid' _ h with ⟨htid, hN⟩ | ⟨htid, h'⟩
                · cases hN
                  exact ⟨rfl, htid ▸ hHold, rfl, hc⟩
                · have hH := (hInv.hres tid' g'' k h').2.1
                  have := holders_single_inj hHold hH
                  exact absurd (Option.some.inj this) htid
              · intro tid' g'' r h
                rcases set_lookup hlen tid' _ h with ⟨_, hN⟩ | ⟨htid, h'⟩
                · cases hN
                · have hH := (hInv.hrel tid' g'' r h').2.1
                  have := holders_single_inj hHold hH
                  exact absurd (Option.some.inj this) htid
              · intro tid' r h
                rcases set_lookup hlen tid' _ h with ⟨_, hN⟩ | ⟨_, h'⟩
                · cases hN
                · obtain ⟨e, _, he⟩ := hInv.hdone tid' r h'
                  rw [hc] at he; cases he
              · intro _
                exact Or.inl ⟨tid, 0, 0,
                  by rw [List.getElem?_set_self hlen]⟩
      | resolving g k =>
          obtain ⟨hg0, hHold, hcnt1, hcache0⟩ := hInv.hres tid g k hpc
          subst hg0
          obtain ⟨u, ct, hbk, hfresh⟩ := hb k
          have hstep : step now behavior m tid true =
              { m with
                cache := some ⟨u, parse_expire_from_url u now, ct⟩
                threads := m.threads.set tid (PC.releasing 0
                  (.success ⟨u, parse_expire_from_url u now, ct⟩)) } := by
            simp [step, hpc, hbk]
          rw [hstep]
          refine ⟨hInv.hfail, hInv.hcnt, ?_, ?_, ?_, ?_, ?_, ?_, ?_, ?_⟩
          · intro e he
            cases Option.some.inj he
            exact ⟨hfresh, hcnt1⟩
          · intro hreg
            obtain ⟨_, _, hthreads⟩ := hInv.hregN hreg
            rcases hthreads tid _ hpc with hS | hS <;> cases hS
          · intro g'' hg''
            exact hInv.hregS g'' hg''
          · intro tid' g'' h
            rcases set_lookup hlen tid' _ h with ⟨_, hN⟩ | ⟨htid, h'⟩
            · cases hN
            · have hH := (hInv.hlock tid' g'' h').2
              have := holders_single_inj hHold hH
              exact absurd (Option.some.inj this) htid
          · intro tid' g'' k' h
            rcases set_lookup hlen tid' _ h with ⟨_, hN⟩ | ⟨htid, h'⟩
            · cases hN
            · have hH := (hInv.hres tid' g'' k' h').2.1
              have := holders_single_inj hHold hH
              exact absurd (Option.some.inj this) htid
          · intro tid' g'' r h
            rcases set_lookup hlen tid' _ h with ⟨htid, hN⟩ | ⟨htid, h'⟩
            · cases hN
              exact ⟨rfl, htid ▸ hHold, hcnt1,
                ⟨u, parse_expire_from_url u now, ct⟩, rfl, rfl⟩
            · have hH := (hInv.hrel tid' g'' r h').2.1
              have := holders_single_inj hHold hH
              exact absurd (Option.some.inj this) htid
          · intro tid' r h
            rcases set_lookup hlen tid' _ h with ⟨_, hN⟩ | ⟨_, h'⟩
            · cases hN
            · obtain ⟨e, _, he⟩ := hInv.hdone tid' r h'
              rw [hcache0] at he; cases he
          · intro _
            exact Or.inr ⟨⟨u, parse_expire_from_url u now, ct⟩, rfl⟩
      | releasing g r =>
          obtain ⟨hg0, hHold, hcnt1, e, hr, hcache⟩ := hInv.hrel tid g r hpc
          subst hg0
          have hstep : step now behavior m tid true =
              { m with
                holders := updateKey m.holders 0 (fun _ => none)
                threads := m.threads.set tid (PC.done r) } := by
            simp [step, hpc]
          have hupd : updateKey m.holders 0 (fun _ => none) =
              [(0, none)] := by
            rw [hHold]; simp [updateKey]
          rw [hstep, hupd]
          refine ⟨hInv.hfail, hInv.hcnt, hInv.hcache, ?_, ?_, ?_, ?_, ?_,
            ?_, ?_⟩
          · intro hreg
            obtain ⟨_, _, hthreads⟩ := hInv.hregN hreg
            rcases hthreads tid _ hpc with hS | hS <;> cases hS
          · intro g'' hg''
            obtain ⟨ha, hb', _⟩ := hInv.hregS g'' hg''
            exact ⟨ha, hb', none, rfl⟩
          · intro tid' g'' h
            rcases set_lookup hlen tid' _ h with ⟨_, hN⟩ | ⟨htid, h'⟩
            · cases hN
            · have hH := (hInv.hlock tid' g'' h').2
              have := holders_single_inj hHold hH
              exact absurd (Option.some.inj this) htid
          · intro tid' g'' k h
            rcases set_lookup hlen tid' _ h with ⟨_, hN⟩ | ⟨htid, h'⟩
            · cases hN
            · have hH := (hInv.hres tid' g'' k h').2.1
              have := holders_single_inj hHold hH
              exact absurd (Option.some.inj this) htid
          · intro tid' g'' r' h
            rcases set_lookup hlen tid' _ h with ⟨_, hN⟩ | ⟨htid, h'⟩
            · cases hN
            · have hH := (hInv.hrel tid' g'' r' h').2.1
              have := holders_single_inj hHold hH
              exact absurd (Option.some.inj this) htid
          · intro tid' r' h
            rcases set_lookup hlen tid' _ h with ⟨_, hN⟩ | ⟨_, h'⟩
            · cases hN
              exact ⟨e, hr, hcache⟩
            · exact hInv.hdone tid' r' h'
          · intro _
            exact Or.inr ⟨e, hcache⟩
      | done r =>
          have hstep : step now behavior m tid true = m := by
            simp [step, hpc]
          rw [hstep]; exact hInv

theorem run_preserves_Inv {now : Nat}
    {behavior : Nat → Option (Url × String)}
    (hb : SuccBehavior now behavior) {m : GState} (hInv : Inv now m)
    (sched : List SEntry) (hq : QuietSched sched) :
    Inv now (run now behavior m sched) := by
  induction sched generalizing m with
  | nil => exact hInv
  | cons e rest ih =>
      obtain ⟨tid, he⟩ := hq e (List.mem_cons_self _ _)
      subst he
      exact ih (step_preserves_Inv hb tid hInv)
        (fun e hp => hq e (List.mem_cons_of_mem _ hp))

theorem step_threads_length (now : Nat)
    (behavior : Nat → Option (Url × String)) (m : GState) (tid : Nat)
    (c : Bool) :
    (step now behavior m tid c).threads.length = m.threads.length := by
  unfold step
  repeat' split
  all_goals simp [setThread]

theorem stepEntry_threads_length (now : Nat)
    (behavior : Nat → Option (Url × String)) (m : GState) (e : SEntry) :
    (stepEntry now behavior m e).threads.length = m.threads.length := by
  cases e with
  | thread tid c => exact step_threads_length now behavior m tid c
  | sweep =>
      cases hr : m.registry with
      | none => simp [stepEntry, hr]
      | some g =>
          cases hl : lookupKey m.holders g with
          | none => simp [stepEntry, hr, hl]
          | some hh => cases hh <;> simp [stepEntry, hr, hl]
  | forceSweep => rfl

theorem run_threads_length (now : Nat)
    (behavior : Nat → Option (Url × String)) (m : GState)
    (sched : List SEntry) :
    (run now behavior m sched).threads.length = m.threads.length := by
  induction sched generalizing m with
  | nil => rfl
  | cons e rest ih =>
      rw [run]
      rw [ih]
      exact stepEntry_threads_length now behavior m e

end Concurrent

/-- C2 as amended: as long as no lock acquisition times out, no
`cleanup_locks` draw or `force_cleanup_locks` sweep runs during the
episode (each of those deletes the identifier's handle from the registry
mid-flight), and the Resolver succeeds with a not-yet-expired expiry,
N concurrent `resolve` calls for one identifier invoke the Resolver at
most once in total — exactly once when every caller completes — no two
Resolver calls are ever in flight at the same time, and all completed
callers return the same successful entry. (The counterexample shows each
dropped assumption is necessary: an acquisition timeout deletes the
handle and lets a second Resolver call start while the first is in
flight; a cleanup draw falling between another caller's `setdefault` and
its `acquire` deletes the still-unlocked handle with the same effect,
even with no timeout and a succeeding Resolver; and a failing Resolver is
re-invoked by callers already past the failure-cache check, because the
double-check under the lock consults only the success cache.) -/
theorem claim_C2_amended (now : Nat)
    (behavior : Nat → Option (Url × String))
    (hb : Concurrent.SuccBehavior now behavior) (n : Nat)
    (sched : List Concurrent.SEntry) (hq : Concurrent.QuietSched sched) :
    (Concurrent.run now behavior (Concurrent.init n) sched).resolverCount
      ≤ 1 ∧
    (∀ pre suf, sched = pre ++ suf →
      ∀ (i j gi ki gj kj : Nat),
        (Concurrent.run now behavior (Concurrent.init n) pre).threads[i]? =
          some (Concurrent.PC.resolving gi ki) →
        (Concurrent.run now behavior (Concurrent.init n) pre).threads[j]? =
          some (Concurrent.PC.resolving gj kj) →
        i = j) ∧
    (∀ (i j : Nat) (ri rj : Concurrent.CResult),
      (Concurrent.run now behavior (Concurrent.init n) sched).threads[i]? =
        some (Concurrent.PC.done ri) →
      (Concurrent.run now behavior (Concurrent.init n) sched).threads[j]? =
        some (Concurrent.PC.done rj) →
      ri = rj ∧ ∃ e, ri = Concurrent.CResult.success e) ∧
    (0 < n →
      (∀ (i : Nat) (pc : Concurrent.PC),
        (Concurrent.run now behavior (Concurrent.init n) sched).threads[i]?
          = some pc → pc.isDone = true) →
      (Concurrent.run now behavior (Concurrent.init n) sched).resolverCount
        = 1) := by
  have hInvF := Concurrent.run_preserves_Inv hb
    (Concurrent.Inv_init now n) sched hq
  refine ⟨hInvF.hcnt, ?_, ?_, ?_⟩
  · intro pre suf hsched i j gi ki gj kj hi hj
    have hqpre : Concurrent.QuietSched pre := by
      intro p hp
      exact hq p (by rw [hsched]; exact List.mem_append_left _ hp)
    have hInvP := Concurrent.run_preserves_Inv hb
      (Concurrent.Inv_init now n) pre hqpre
    have hHi := (hInvP.hres i gi ki hi).2.1
    have hHj := (hInvP.hres j gj kj hj).2.1
    exact Option.some.inj (Concurrent.holders_single_inj hHi hHj)
  · intro i j ri rj hi hj
    obtain ⟨e, hri, hce⟩ := hInvF.hdone i ri hi
    obtain ⟨e', hrj, hce'⟩ := hInvF.hdone j rj hj
    rw [hce] at hce'
    cases Option.some.inj hce'
    exact ⟨hri.trans hrj.symm, e, hri⟩
  · intro hn hdoneAll
    have hlenF : (Concurrent.run now behavior (Concurrent.init n)
        sched).threads.length = n := by
      rw [Concurrent.run_threads_length]
      simp [Concurrent.init]
    obtain ⟨pc0, h0⟩ : ∃ pc0,
        (Concurrent.run now behavior (Concurrent.init n)
          sched).threads[0]? = some pc0 := by
      rw [List.getElem?_eq_getElem (by omega)]
      exact ⟨_, rfl⟩
    have hd := hdoneAll 0 pc0 h0
    cases hpc0eq : pc0 with
    | done r =>
        rw [hpc0eq] at h0
        obtain ⟨e, _, hce⟩ := hInvF.hdone 0 r h0
        exact (hInvF.hcache e hce).2
    | start => rw [hpc0eq] at hd; simp [Concurrent.PC.isDone] at hd
    | passedFailure => rw [hpc0eq] at hd; simp [Concurrent.PC.isDone] at hd
    | acquiring g => rw [hpc0eq] at hd; simp [Concurrent.PC.isDone] at hd
    | locked g => rw [hpc0eq] at hd; simp [Concurrent.PC.isDone] at hd
    | resolving g k =>
        rw [hpc0eq] at hd; simp [Concurrent.PC.isDone] at hd
    | releasing g r =>
        rw [hpc0eq] at hd; simp [Concurrent.PC.isDone] at hd

/-- Witness for the amended C2: a concrete quiet two-caller schedule with
a succeeding Resolver performs exactly one Resolver invocation. -/
theorem claim_C2_amended_witness :
    (Concurrent.run 0 (fun _ => some (⟨"u", none⟩, "audio/mpeg"))
      (Concurrent.init 2)
      [.thread 0 true, .thread 0 true, .thread 0 true, .thread 0 true,
       .thread 0 true, .thread 0 true, .thread 1 true, .thread 1 true,
       .thread 1 true, .thread 1 true]).resolverCount ≤ 1 ∧
    (Concurrent.run 0 (fun _ => some (⟨"u", none⟩, "audio/mpeg"))
      (Concurrent.init 2)
      [.thread 0 true, .thread 0 true, .thread 0 true, .thread 0 true,
       .thread 0 true, .thread 0 true, .thread 1 true, .thread 1 true,
       .thread 1 true, .thread 1 true]).resolverCount = 1 :=
  ⟨(claim_C2_amended 0 (fun _ => some (⟨"u", none⟩, "audio/mpeg"))
      (fun _ => ⟨⟨"u", none⟩, "audio/mpeg", rfl, by decide⟩) 2
      [.thread 0 true, .thread 0 true, .thread 0 true, .thread 0 true,
       .thread 0 true, .thread 0 true, .thread 1 true, .thread 1 true,
       .thread 1 true, .thread 1 true]
      (by intro e he; fin_cases he <;> exact ⟨_, rfl⟩)).1,
   by decide⟩

end Nova
